import Mathlib

/-!
Verification of the microsporidia text-mining scripts.

Python strings are modelled as `List Char`; Python dictionaries are modelled
as association lists; external services (spaCy models, geonames, GBIF, the
UMLS linker) are modelled as explicit function parameters, since their outputs
are data consumed by the scripts rather than code of the repository.
Fallible Python code (code that can raise) is modelled with `Option`/`Except`.
-/

namespace Microsp

/-! ## Python string primitives -/

/-- `str.replace(old, new)` for single characters: replace every occurrence. -/
def pyReplaceChar (old new : Char) (s : List Char) : List Char :=
  s.map (fun c => if c = old then new else c)

/-- Characters stripped by Python `str.strip()` (the ASCII whitespace ones). -/
def pyIsSpace (c : Char) : Bool :=
  c = ' ' || c = '\t' || c = '\n' || c = '\r' || c = '\x0b' || c = '\x0c'

/-- `str.strip()`: drop leading and trailing whitespace. -/
def pyStrip (s : List Char) : List Char :=
  ((s.dropWhile pyIsSpace).reverse.dropWhile pyIsSpace).reverse

/-- `re.sub(' +', ' ', s)`: collapse every maximal run of spaces to a single
space.  The boolean records whether the previous kept character was a space. -/
def collapseSpacesAux : List Char → Bool → List Char
  | [], _ => []
  | c :: rest, prevSpace =>
    if c = ' ' then
      if prevSpace then collapseSpacesAux rest true
      else ' ' :: collapseSpacesAux rest true
    else c :: collapseSpacesAux rest false

def collapseSpaces (s : List Char) : List Char :=
  collapseSpacesAux s false

/-- `s.split(' ')` for Python: split at every single space, keeping empty
pieces for leading/trailing/consecutive spaces. -/
def pySplitSpace : List Char → List (List Char)
  | [] => [[]]
  | c :: rest =>
    if c = ' ' then [] :: pySplitSpace rest
    else
      match pySplitSpace rest with
      | [] => [[c]]
      | w :: ws => (c :: w) :: ws

/-- `re.search("[A-Z]\\. ", s)` as a boolean: some position holds an ASCII
uppercase letter followed by a period and a space. -/
def isUpperAZ (c : Char) : Bool := 'A' ≤ c && c ≤ 'Z'

def hasAbbrevPattern : List Char → Bool
  | c1 :: c2 :: c3 :: rest =>
    (isUpperAZ c1 && c2 = '.' && c3 = ' ') || hasAbbrevPattern (c2 :: c3 :: rest)
  | _ => false

/-! ## `clean_text`
From `src/src/2_predict_traits/spacy_extract_traits.py` (and the identical
copy in `src/src/spacy_feature_extraction/spacy_extract_traits.py`):
`re.sub(' +', ' ', txt.replace('\t', ' ').replace('\n', ' ')).strip()`. -/

def clean_text (txt : List Char) : List Char :=
  pyStrip (collapseSpaces (pyReplaceChar '\n' ' ' (pyReplaceChar '\t' ' ' txt)))

/-- `True` when the list has no two consecutive space characters. -/
def noDoubleSpace : List Char → Bool
  | c1 :: c2 :: rest => (!(c1 = ' ' && c2 = ' ')) && noDoubleSpace (c2 :: rest)
  | _ => true

/-! ## `get_abbrev_species_name`
From `src/src/2_predict_traits/predict_host_infected_tissues.py`:

    if re.search("[A-Z]\\. ", host): return host
    host = host.split(' ')
    abbrevs = [s[0] + '.' for s in host[:len(host) - 1]]
    return ' '.join(abbrevs + [host[len(host) - 1]])

`none` models the `IndexError` Python raises at `s[0]` when a non-final
word is empty. -/

def abbrevWord (w : List Char) : Option (List Char) :=
  (w.head?).map (fun c => [c, '.'])

def get_abbrev_species_name (host : List Char) : Option (List Char) :=
  if hasAbbrevPattern host then some host
  else
    match ((pySplitSpace host).take ((pySplitSpace host).length - 1)).mapM
        abbrevWord with
    | none => none
    | some abbrevs =>
      some (List.intercalate [' '] (abbrevs ++ [(pySplitSpace host).getLastD []]))

/-! ## Lemmas about the string primitives -/

theorem mem_collapseSpacesAux {c : Char} :
    ∀ (s : List Char) (b : Bool), c ∈ collapseSpacesAux s b → c ∈ s := by
  intro s
  induction s with
  | nil => intro b h; simp [collapseSpacesAux] at h
  | cons a rest ih =>
    intro b h
    by_cases ha : a = ' '
    · subst ha
      cases b with
      | true =>
        rw [show collapseSpacesAux (' ' :: rest) true =
          collapseSpacesAux rest true from rfl] at h
        exact List.mem_cons_of_mem _ (ih _ h)
      | false =>
        rw [show collapseSpacesAux (' ' :: rest) false =
          ' ' :: collapseSpacesAux rest true from rfl] at h
        rcases List.mem_cons.mp h with h1 | h1
        · simp [h1]
        · exact List.mem_cons_of_mem _ (ih _ h1)
    · simp only [collapseSpacesAux, if_neg ha, List.mem_cons] at h
      rcases h with h | h
      · simp [h]
      · exact List.mem_cons_of_mem _ (ih _ h)

theorem collapseSpacesAux_true_head :
    ∀ (s : List Char) (c : Char) (rest : List Char),
      collapseSpacesAux s true = c :: rest → c ≠ ' ' := by
  intro s
  induction s with
  | nil => intro c rest h; simp [collapseSpacesAux] at h
  | cons a t ih =>
    intro c rest h
    by_cases ha : a = ' '
    · subst ha
      simp only [collapseSpacesAux, if_pos rfl] at h
      exact ih c rest h
    · simp only [collapseSpacesAux, if_neg ha] at h
      injection h with h1 h2
      rw [← h1]
      exact ha

theorem noDoubleSpace_cons_tail {c : Char} {l : List Char}
    (h : noDoubleSpace (c :: l) = true) : noDoubleSpace l = true := by
  cases l with
  | nil => rfl
  | cons d t =>
    simp only [noDoubleSpace, Bool.and_eq_true] at h
    exact h.2

theorem noDoubleSpace_collapseSpacesAux :
    ∀ (s : List Char) (b : Bool), noDoubleSpace (collapseSpacesAux s b) = true := by
  intro s
  induction s with
  | nil => intro b; rfl
  | cons a t ih =>
    intro b
    by_cases ha : a = ' '
    · subst ha
      cases b with
      | true => simpa only [collapseSpacesAux, if_pos rfl] using ih true
      | false =>
        simp only [collapseSpacesAux, if_pos rfl]
        rcases hrec : collapseSpacesAux t true with _ | ⟨c2, t2⟩
        · rfl
        · have hc2 : c2 ≠ ' ' := collapseSpacesAux_true_head t c2 t2 hrec
          have := ih true
          rw [hrec] at this
          simp only [noDoubleSpace, Bool.and_eq_true]
          refine ⟨?_, this⟩
          simp [hc2]
    · simp only [collapseSpacesAux, if_neg ha]
      rcases hrec : collapseSpacesAux t false with _ | ⟨c2, t2⟩
      · rfl
      · have := ih false
        rw [hrec] at this
        simp only [noDoubleSpace, Bool.and_eq_true]
        refine ⟨?_, this⟩
        simp [ha]

/-- The relation underlying `noDoubleSpace`. -/
def notBothSpaces (a b : Char) : Prop := ¬ (a = ' ' ∧ b = ' ')

theorem noDoubleSpace_iff_chain {l : List Char} :
    noDoubleSpace l = true ↔ l.Chain' notBothSpaces := by
  induction l with
  | nil => simp [noDoubleSpace]
  | cons a t ih =>
    cases t with
    | nil => simp [noDoubleSpace, List.chain'_singleton]
    | cons b t2 =>
      rw [List.chain'_cons, ← ih]
      simp only [noDoubleSpace, Bool.and_eq_true, Bool.not_eq_true']
      constructor
      · rintro ⟨h1, h2⟩
        refine ⟨?_, h2⟩
        intro ⟨hb1, hb2⟩
        subst hb1; subst hb2
        simp at h1
      · rintro ⟨h1, h2⟩
        refine ⟨?_, h2⟩
        by_contra hcon
        simp only [Bool.not_eq_false, Bool.and_eq_true, decide_eq_true_eq] at hcon
        exact h1 hcon

theorem noDoubleSpace_reverse {l : List Char} (h : noDoubleSpace l = true) :
    noDoubleSpace l.reverse = true := by
  rw [noDoubleSpace_iff_chain] at h ⊢
  rw [List.chain'_reverse]
  exact h.imp (fun a b hab => fun ⟨h1, h2⟩ => hab ⟨h2, h1⟩)

theorem noDoubleSpace_dropWhile {l : List Char} {p : Char → Bool}
    (h : noDoubleSpace l = true) : noDoubleSpace (l.dropWhile p) = true := by
  induction l with
  | nil => rfl
  | cons a t ih =>
    rw [List.dropWhile_cons]
    by_cases hp : p a = true
    · simp only [hp, if_true]
      exact ih (noDoubleSpace_cons_tail h)
    · simp only [hp]
      exact h

theorem dropWhile_headD_not {l : List Char} {p : Char → Bool} {d : Char}
    (hd : p d = false) : p ((l.dropWhile p).headD d) = false := by
  induction l with
  | nil => simpa using hd
  | cons a t ih =>
    rw [List.dropWhile_cons]
    by_cases hp : p a = true
    · simp only [hp, if_true]; exact ih
    · simp only [hp, if_false, List.headD_cons]
      simpa using hp

theorem prefix_headD {l1 l2 : List Char} {d : Char} (h : l1 <+: l2)
    (hne : l1 ≠ []) : l1.headD d = l2.headD d := by
  rcases h with ⟨t, rfl⟩
  cases l1 with
  | nil => exact absurd rfl hne
  | cons a t1 => rfl

/-! ## Claim C9 -/

/-- Claim C9: for every input string, the string returned by `clean_text`
contains no tab or newline characters, no two consecutive space characters,
and no leading or trailing whitespace. -/
theorem clean_text_clean (txt : List Char) :
    '\t' ∉ clean_text txt ∧ '\n' ∉ clean_text txt ∧
    noDoubleSpace (clean_text txt) = true ∧
    pyIsSpace ((clean_text txt).headD 'x') = false ∧
    pyIsSpace ((clean_text txt).getLastD 'x') = false := by
  set m := collapseSpaces (pyReplaceChar '\n' ' ' (pyReplaceChar '\t' ' ' txt)) with hm
  set m1 := m.dropWhile pyIsSpace with hm1
  have hclean : clean_text txt = (m1.reverse.dropWhile pyIsSpace).reverse := rfl
  -- membership in the result implies membership in the collapsed string
  have hmem : ∀ c : Char, c ∈ clean_text txt → c ∈ m := by
    intro c hc
    rw [hclean, List.mem_reverse] at hc
    have h1 : c ∈ m1.reverse := (List.dropWhile_suffix _).subset hc
    rw [List.mem_reverse] at h1
    exact (List.dropWhile_suffix _).subset h1
  have hnotab : ∀ c : Char, c ∈ m → c ≠ '\t' ∧ c ≠ '\n' := by
    intro c hc
    have h2 : c ∈ pyReplaceChar '\n' ' ' (pyReplaceChar '\t' ' ' txt) :=
      mem_collapseSpacesAux _ _ hc
    simp only [pyReplaceChar, List.map_map, List.mem_map, Function.comp] at h2
    rcases h2 with ⟨a, -, rfl⟩
    by_cases h1 : a = '\t' <;> by_cases hn : a = '\n' <;> simp [h1, hn]
  refine ⟨?_, ?_, ?_, ?_, ?_⟩
  · intro hc; exact ((hnotab _ (hmem _ hc)).1 rfl)
  · intro hc; exact ((hnotab _ (hmem _ hc)).2 rfl)
  · have h0 : noDoubleSpace m = true := noDoubleSpace_collapseSpacesAux _ _
    rw [hclean]
    exact noDoubleSpace_reverse (noDoubleSpace_dropWhile
      (noDoubleSpace_reverse (noDoubleSpace_dropWhile h0)))
  · -- the cleaned text is a prefix of `m1`, whose head is not whitespace
    rw [hclean]
    have hpre : (m1.reverse.dropWhile pyIsSpace).reverse <+: m1 := by
      rcases List.dropWhile_suffix (l := m1.reverse) (p := pyIsSpace) with ⟨t, ht⟩
      refine ⟨t.reverse, ?_⟩
      have h2 := congrArg List.reverse ht
      simpa [List.reverse_append] using h2
    rcases hres : (m1.reverse.dropWhile pyIsSpace).reverse with _ | ⟨a, t⟩
    · rfl
    · rw [hres] at hpre
      have h3 : (a :: t).headD 'x' = m1.headD 'x' :=
        prefix_headD hpre (by simp)
      rw [h3]
      exact dropWhile_headD_not (by decide)
  · rw [hclean]
    have h4 : (m1.reverse.dropWhile pyIsSpace).reverse.getLastD 'x' =
        (m1.reverse.dropWhile pyIsSpace).headD 'x' := by
      rw [List.getLastD_eq_getLast?, List.getLast?_reverse, ← List.headD_eq_head?]
    rw [h4]
    exact dropWhile_headD_not (by decide)

/-! ## Lemmas about `pySplitSpace` and abbreviation -/

theorem pySplitSpace_ne_nil : ∀ s : List Char, pySplitSpace s ≠ [] := by
  intro s
  cases s with
  | nil => simp [pySplitSpace]
  | cons c rest =>
    by_cases hc : c = ' '
    · simp [pySplitSpace, hc]
    · simp only [pySplitSpace, if_neg hc]
      rcases pySplitSpace rest with _ | ⟨w, ws⟩ <;> simp

theorem space_not_mem_pySplitSpace :
    ∀ (s : List Char), ∀ w ∈ pySplitSpace s, ' ' ∉ w := by
  intro s
  induction s with
  | nil => intro w hw; simp [pySplitSpace] at hw; simp [hw]
  | cons c rest ih =>
    intro w hw
    by_cases hc : c = ' '
    · simp only [pySplitSpace, if_pos hc, List.mem_cons] at hw
      rcases hw with rfl | hw
      · simp
      · exact ih w hw
    · simp only [pySplitSpace, if_neg hc] at hw
      rcases hsp : pySplitSpace rest with _ | ⟨w1, ws⟩
      · exact absurd hsp (pySplitSpace_ne_nil rest)
      · rw [hsp] at hw
        simp only [List.mem_cons] at hw
        rcases hw with rfl | hw
        · intro hmem
          rcases List.mem_cons.mp hmem with h1 | h1
          · exact hc h1.symm
          · exact ih w1 (by rw [hsp]; simp) h1
        · exact ih w (by rw [hsp]; simp [hw])

theorem pySplitSpace_no_space {p : List Char} (h : ' ' ∉ p) :
    pySplitSpace p = [p] := by
  induction p with
  | nil => rfl
  | cons c rest ih =>
    have hc : c ≠ ' ' := fun hcon => h (by simp [hcon])
    have hrest : ' ' ∉ rest := fun hcon => h (List.mem_cons_of_mem _ hcon)
    simp only [pySplitSpace, if_neg hc, ih hrest]

theorem pySplitSpace_append_space {p : List Char} (rest : List Char)
    (h : ' ' ∉ p) :
    pySplitSpace (p ++ ' ' :: rest) = p :: pySplitSpace rest := by
  induction p with
  | nil => simp [pySplitSpace]
  | cons c t ih =>
    have hc : c ≠ ' ' := fun hcon => h (by simp [hcon])
    have ht : ' ' ∉ t := fun hcon => h (List.mem_cons_of_mem _ hcon)
    simp only [List.cons_append, pySplitSpace, if_neg hc]
    rw [show t.append (' ' :: rest) = t ++ ' ' :: rest from rfl, ih ht]

theorem intercalate_cons₂ (sep a b : List Char) (l : List (List Char)) :
    List.intercalate sep (a :: b :: l) = a ++ sep ++ List.intercalate sep (b :: l) := by
  simp [List.intercalate, List.intersperse, List.flatten, List.append_assoc]

theorem intercalate_singleton (sep a : List Char) :
    List.intercalate sep [a] = a := by
  simp [List.intercalate, List.intersperse, List.flatten]

theorem pySplitSpace_intercalate :
    ∀ (parts : List (List Char)), parts ≠ [] → (∀ w ∈ parts, ' ' ∉ w) →
      pySplitSpace (List.intercalate [' '] parts) = parts := by
  intro parts
  induction parts with
  | nil => intro h; exact absurd rfl h
  | cons p rest ih =>
    intro _ hw
    cases rest with
    | nil =>
      rw [intercalate_singleton]
      exact pySplitSpace_no_space (hw p (by simp))
    | cons q rest2 =>
      rw [intercalate_cons₂]
      rw [List.append_assoc, List.singleton_append]
      rw [pySplitSpace_append_space _ (hw p (by simp))]
      rw [ih (by simp) (fun w hmem => hw w (List.mem_cons_of_mem _ hmem))]

theorem mapM_abbrevWord_shape :
    ∀ (l l2 : List (List Char)), (∀ w ∈ l, ' ' ∉ w) →
      l.mapM abbrevWord = some l2 →
      ∀ b ∈ l2, ∃ c : Char, c ≠ ' ' ∧ b = [c, '.'] := by
  intro l
  induction l with
  | nil =>
    intro l2 _ hmap b hb
    simp only [List.mapM_nil, pure, Option.some.injEq] at hmap
    subst hmap
    simp at hb
  | cons w t ih =>
    intro l2 hsp hmap b hb
    rw [List.mapM_cons] at hmap
    cases hw : abbrevWord w with
    | none => rw [hw] at hmap; simp at hmap
    | some bw =>
      rw [hw] at hmap
      cases ht : t.mapM abbrevWord with
      | none => rw [ht] at hmap; simp at hmap
      | some bt =>
        rw [ht] at hmap
        have hmap2 : bw :: bt = l2 := by simpa using hmap
        subst hmap2
        rcases List.mem_cons.mp hb with rfl | hb2
        · simp only [abbrevWord, Option.map_eq_some'] at hw
          rcases hw with ⟨c, hc, rfl⟩
          refine ⟨c, ?_, rfl⟩
          intro hcon
          subst hcon
          exact hsp w (by simp) (by
            cases w with
            | nil => simp [List.head?] at hc
            | cons x xs =>
              simp only [List.head?, Option.some.injEq] at hc
              simp [hc])
        · exact ih bt (fun v hv => hsp v (List.mem_cons_of_mem _ hv)) ht b hb2

theorem mapM_abbrevWord_fixed :
    ∀ (l : List (List Char)), (∀ b ∈ l, ∃ c : Char, c ≠ ' ' ∧ b = [c, '.']) →
      l.mapM abbrevWord = some l := by
  intro l
  induction l with
  | nil => intro _; rfl
  | cons b t ih =>
    intro h
    rw [List.mapM_cons]
    rcases h b (by simp) with ⟨c, -, rfl⟩
    rw [show abbrevWord [c, '.'] = some [c, '.'] from rfl]
    rw [ih (fun v hv => h v (List.mem_cons_of_mem _ hv))]
    rfl

theorem getLastD_concat' (l : List (List Char)) (a : List Char) :
    ∀ d, (l ++ [a]).getLastD d = a := by
  induction l with
  | nil => intro d; rfl
  | cons x t ih =>
    intro d
    rw [List.cons_append, List.getLastD_cons]
    exact ih x

theorem getLastD_mem (l : List (List Char)) (d : List Char) (h : l ≠ []) :
    l.getLastD d ∈ l := by
  induction l with
  | nil => exact absurd rfl h
  | cons x t ih =>
    cases t with
    | nil => simp [List.getLastD]
    | cons y t2 =>
      rw [List.getLastD_cons]
      exact List.mem_cons_of_mem _ (ih (by simp))

/-- The fixed-point property behind idempotence: any output of
`get_abbrev_species_name` is mapped to itself. -/
theorem get_abbrev_species_name_fix {host y : List Char}
    (h : get_abbrev_species_name host = some y) :
    get_abbrev_species_name y = some y := by
  unfold get_abbrev_species_name at h
  by_cases hp : hasAbbrevPattern host = true
  · rw [if_pos hp] at h
    injection h with h1
    subst h1
    unfold get_abbrev_species_name
    rw [if_pos hp]
  · rw [if_neg hp] at h
    rcases hmap : ((pySplitSpace host).take ((pySplitSpace host).length - 1)).mapM
        abbrevWord with _ | abbrevs
    · rw [hmap] at h; simp at h
    · rw [hmap] at h
      simp only [Option.some.injEq] at h
      set ws := pySplitSpace host with hws
      set lastw := ws.getLastD [] with hlast
      -- shapes of the abbreviated words
      have hshape : ∀ b ∈ abbrevs, ∃ c : Char, c ≠ ' ' ∧ b = [c, '.'] :=
        mapM_abbrevWord_shape _ _
          (fun w hw => space_not_mem_pySplitSpace host w (List.mem_of_mem_take hw))
          hmap
      have hlastsp : ' ' ∉ lastw :=
        space_not_mem_pySplitSpace host lastw
          (getLastD_mem _ _ (pySplitSpace_ne_nil host))
      by_cases hpy : hasAbbrevPattern y = true
      · unfold get_abbrev_species_name
        rw [if_pos hpy]
      · unfold get_abbrev_species_name
        rw [if_neg hpy]
        have hsplit : pySplitSpace y = abbrevs ++ [lastw] := by
          rw [← h]
          refine pySplitSpace_intercalate _ (by simp) ?_
          intro w hw
          rcases List.mem_append.mp hw with h1 | h1
          · rcases hshape w h1 with ⟨c, hc, rfl⟩
            intro hcon
            rcases List.mem_cons.mp hcon with h2 | h2
            · exact hc h2.symm
            · simp at h2
          · rw [List.mem_singleton.mp h1]
            exact hlastsp
        rw [hsplit]
        have hlen : (abbrevs ++ [lastw]).length - 1 = abbrevs.length := by
          simp
        rw [hlen, List.take_left]
        rw [mapM_abbrevWord_fixed abbrevs hshape]
        rw [getLastD_concat']
        show some (List.intercalate [' '] (abbrevs ++ [lastw])) = some y
        rw [h]

/-! ## Claim C10 -/

/-- Claim C10: species-name abbreviation is idempotent: for every non-empty
species name, applying `get_abbrev_species_name` twice yields the same result
as applying it once (`none` models the `IndexError` Python raises on an empty
non-final word, and propagates), and any name already matching the abbreviated
form `[A-Z]. ` is returned unchanged. -/
theorem get_abbrev_species_name_idem (host : List Char) (hne : host ≠ []) :
    (get_abbrev_species_name host).bind get_abbrev_species_name =
      get_abbrev_species_name host ∧
    (hasAbbrevPattern host = true → get_abbrev_species_name host = some host) := by
  constructor
  · cases hres : get_abbrev_species_name host with
    | none => rfl
    | some y =>
      show get_abbrev_species_name y = some y
      exact get_abbrev_species_name_fix hres
  · intro hp
    unfold get_abbrev_species_name
    rw [if_pos hp]

/-- Witness for C10 at the concrete species name `Nosema bombycis`. -/
theorem get_abbrev_species_name_idem_witness :
    (get_abbrev_species_name ("Nosema bombycis").data).bind
        get_abbrev_species_name =
      get_abbrev_species_name ("Nosema bombycis").data :=
  (get_abbrev_species_name_idem ("Nosema bombycis").data (by decide)).1

/-! ## `remove_overlapping_entities` and `is_overlapping_ent`
From `src/src/3_train_pipelines/microsp_host_relation_extraction/create_labelled_species_spans.py`.
Labelled entity spans are `(start_token, end_token, label)` tuples. -/

structure SpanEnt where
  start : Nat
  stop : Nat
  label : String
deriving DecidableEq, Repr

/-- Python `range(a, b)` as a list. -/
def pyRange (a b : Nat) : List Nat := List.range' a (b - a)

/-- `is_overlapping_ent`: the token-index ranges `[start, stop]` of the two
entities intersect (`len(set(range(e1[0], e1[1] + 1)) & set(range(e2[0],
e2[1] + 1))) > 0`). -/
def is_overlapping_ent (ent_1 ent_2 : SpanEnt) : Bool :=
  decide (0 < ((pyRange ent_1.start (ent_1.stop + 1)).filter
    (fun n => n ∈ pyRange ent_2.start (ent_2.stop + 1))).length)

/-- `remove_overlapping_entities`: drop from each list the spans overlapping
some span of the other list (`list.remove` deletes the first equal element,
modelled by `List.erase`), then concatenate. -/
def remove_overlapping_entities (ents_1 ents_2 : List SpanEnt) : List SpanEnt :=
  ((ents_1.filter
      (fun ent => ents_2.any (fun other => is_overlapping_ent ent other))).foldl
    (fun acc ent => acc.erase ent) ents_1) ++
    ((ents_2.filter
      (fun ent => ents_1.any (fun other => is_overlapping_ent ent other))).foldl
    (fun acc ent => acc.erase ent) ents_2)

/-! ## Lemmas for claim C5 -/

theorem foldl_erase_of_not_mem {α : Type} [DecidableEq α] :
    ∀ (ys : List α) (a : α) (t : List α), (∀ y ∈ ys, y ≠ a) →
      ys.foldl (fun acc e => acc.erase e) (a :: t) =
        a :: ys.foldl (fun acc e => acc.erase e) t := by
  intro ys
  induction ys with
  | nil => intro a t _; rfl
  | cons y ys2 ih =>
    intro a t h
    have hy : y ≠ a := h y (by simp)
    have hstep : (a :: t).erase y = a :: t.erase y := by
      rw [List.erase_cons]
      rw [if_neg (fun hcon => hy (eq_of_beq hcon).symm)]
    simp only [List.foldl_cons, hstep]
    exact ih a (t.erase y) (fun v hv => h v (List.mem_cons_of_mem _ hv))

theorem foldl_erase_filter {α : Type} [DecidableEq α] :
    ∀ (l : List α) (p : α → Bool),
      (l.filter p).foldl (fun acc e => acc.erase e) l =
        l.filter (fun a => !(p a)) := by
  intro l
  induction l with
  | nil => intro p; rfl
  | cons a t ih =>
    intro p
    by_cases hp : p a = true
    · rw [List.filter_cons_of_pos hp]
      simp only [List.foldl_cons]
      rw [List.erase_cons_head]
      rw [ih p]
      rw [List.filter_cons_of_neg (by simp [hp])]
    · rw [List.filter_cons_of_neg (by simp [hp])]
      rw [foldl_erase_of_not_mem _ a t (by
        intro y hy hcon
        subst hcon
        rw [List.mem_filter] at hy
        exact hp hy.2)]
      rw [ih p]
      rw [List.filter_cons_of_pos (by simp [hp])]

theorem remove_overlapping_entities_eq_filter (ents_1 ents_2 : List SpanEnt) :
    remove_overlapping_entities ents_1 ents_2 =
      ents_1.filter (fun ent => !(ents_2.any (fun o => is_overlapping_ent ent o))) ++
      ents_2.filter (fun ent => !(ents_1.any (fun o => is_overlapping_ent ent o))) := by
  unfold remove_overlapping_entities
  rw [foldl_erase_filter, foldl_erase_filter]

theorem is_overlapping_ent_iff (e1 e2 : SpanEnt) :
    is_overlapping_ent e1 e2 = true ↔
      ∃ n, n ∈ pyRange e1.start (e1.stop + 1) ∧
        n ∈ pyRange e2.start (e2.stop + 1) := by
  unfold is_overlapping_ent
  rw [decide_eq_true_eq, List.length_pos]
  constructor
  · intro h
    rcases List.exists_mem_of_ne_nil _ h with ⟨n, hn⟩
    rw [List.mem_filter] at hn
    exact ⟨n, hn.1, by simpa using hn.2⟩
  · rintro ⟨n, h1, h2⟩
    intro hnil
    have hmem : n ∈ (pyRange e1.start (e1.stop + 1)).filter
        (fun m => m ∈ pyRange e2.start (e2.stop + 1)) :=
      List.mem_filter.mpr ⟨h1, by simpa using h2⟩
    rw [hnil] at hmem
    simp at hmem

theorem is_overlapping_ent_comm (e1 e2 : SpanEnt) :
    is_overlapping_ent e1 e2 = is_overlapping_ent e2 e1 := by
  by_cases h : is_overlapping_ent e1 e2 = true
  · rcases (is_overlapping_ent_iff e1 e2).mp h with ⟨n, h1, h2⟩
    rw [h, (is_overlapping_ent_iff e2 e1).mpr ⟨n, h2, h1⟩]
  · have h2 : is_overlapping_ent e2 e1 ≠ true := by
      intro hcon
      rcases (is_overlapping_ent_iff e2 e1).mp hcon with ⟨n, ha, hb⟩
      exact h ((is_overlapping_ent_iff e1 e2).mpr ⟨n, hb, ha⟩)
    rw [Bool.eq_false_iff.mpr h, Bool.eq_false_iff.mpr h2]

/-! ## Claim C5 -/

/-- Claim C5: no span of the first list retained by
`remove_overlapping_entities` overlaps (per `is_overlapping_ent`) any retained
span of the second list. -/
theorem remove_overlapping_entities_disjoint (ents_1 ents_2 : List SpanEnt)
    (e1 e2 : SpanEnt)
    (h1 : e1 ∈ remove_overlapping_entities ents_1 ents_2) (h1m : e1 ∈ ents_1)
    (h2 : e2 ∈ remove_overlapping_entities ents_1 ents_2) (h2m : e2 ∈ ents_2) :
    is_overlapping_ent e1 e2 = false := by
  rw [remove_overlapping_entities_eq_filter] at h1 h2
  rcases List.mem_append.mp h1 with hA | hB
  · -- e1 was kept from the first list: it overlaps nothing in `ents_2`
    rw [List.mem_filter] at hA
    have := hA.2
    simp only [Bool.not_eq_true', List.any_eq_false] at this
    exact Bool.not_eq_true _ ▸ (this e2 h2m)
  · -- e1 was kept from the second list; use what we know about e2
    rcases List.mem_append.mp h2 with hA2 | hB2
    · -- e2 kept from the first list: overlaps nothing in `ents_2`, and
      -- e1 is in `ents_2` since it was kept from there
      rw [List.mem_filter] at hA2 hB
      have := hA2.2
      simp only [Bool.not_eq_true', List.any_eq_false] at this
      rw [is_overlapping_ent_comm]
      exact Bool.not_eq_true _ ▸ (this e1 hB.1)
    · -- e2 kept from the second list: overlaps nothing in `ents_1`
      rw [List.mem_filter] at hB2
      have := hB2.2
      simp only [Bool.not_eq_true', List.any_eq_false] at this
      rw [is_overlapping_ent_comm]
      exact Bool.not_eq_true _ ▸ (this e1 h1m)

/-- Witness for C5: concrete microsporidia/host span lists where one span of
each list is retained. -/
theorem remove_overlapping_entities_disjoint_witness :
    is_overlapping_ent ⟨5, 6, "M"⟩ ⟨10, 11, "H"⟩ = false :=
  remove_overlapping_entities_disjoint
    [⟨0, 1, "M"⟩, ⟨5, 6, "M"⟩] [⟨1, 2, "H"⟩, ⟨10, 11, "H"⟩]
    ⟨5, 6, "M"⟩ ⟨10, 11, "H"⟩ (by decide) (by decide) (by decide) (by decide)

/-! ## Python dictionaries (insertion-ordered association lists) -/

/-- `d[k] = v`: overwrite the entry if the key is present, else append. -/
def pyDictSet {κ β : Type} [DecidableEq κ] (d : List (κ × β)) (k : κ) (v : β) :
    List (κ × β) :=
  if d.any (fun p => p.1 = k) then
    d.map (fun p => if p.1 = k then (k, v) else p)
  else d ++ [(k, v)]

/-- `d[k]` / `k in d`: first entry with the given key. -/
def pyDictGet? {κ β : Type} [DecidableEq κ] (d : List (κ × β)) (k : κ) : Option β :=
  (d.find? (fun p => p.1 = k)).map Prod.snd

theorem pyDictGet?_set_self {κ β : Type} [DecidableEq κ] (d : List (κ × β))
    (k : κ) (v : β) : pyDictGet? (pyDictSet d k v) k = some v := by
  unfold pyDictSet pyDictGet?
  by_cases h : d.any (fun p => p.1 = k) = true
  · rw [if_pos h]
    induction d with
    | nil => simp at h
    | cons p t ih =>
      by_cases hp : p.1 = k
      · simp [List.find?, hp]
      · rw [List.any_cons] at h
        have ht : t.any (fun p => p.1 = k) = true := by
          rcases Bool.or_eq_true_iff.mp h with h1 | h1
          · exact absurd (by simpa using h1) hp
          · exact h1
        simp only [List.map_cons, if_neg hp]
        rw [List.find?]
        rw [show (decide (p.1 = k)) = false by simpa using hp]
        exact ih ht
  · rw [if_neg h]
    induction d with
    | nil => simp [List.find?]
    | cons p t ih =>
      rw [List.any_cons] at h
      have hp : p.1 ≠ k := by
        intro hcon
        exact h (by simp [hcon])
      have ht : ¬ t.any (fun q => q.1 = k) = true := by
        intro hcon
        exact h (by simp [hcon])
      rw [List.cons_append, List.find?]
      rw [show (decide (p.1 = k)) = false by simpa using hp]
      exact ih ht

theorem pyDictGet?_set_other {κ β : Type} [DecidableEq κ] (d : List (κ × β))
    (k k2 : κ) (v v2 : β) (hne : k2 ≠ k) (h : pyDictGet? d k2 = some v2) :
    pyDictGet? (pyDictSet d k v) k2 = some v2 := by
  unfold pyDictSet
  unfold pyDictGet? at h ⊢
  by_cases hany : d.any (fun p => p.1 = k) = true
  · rw [if_pos hany]
    clear hany
    induction d with
    | nil => simp [List.find?] at h
    | cons p t ih =>
      rw [List.find?] at h
      by_cases hp : p.1 = k2
      · rw [show (decide (p.1 = k2)) = true by simpa using hp] at h
        simp only [Option.map_some'] at h
        simp only [List.map_cons]
        rw [if_neg (by rw [hp]; exact hne)]
        rw [List.find?]
        rw [show (decide (p.1 = k2)) = true by simpa using hp]
        simpa using h
      · rw [show (decide (p.1 = k2)) = false by simpa using hp] at h
        simp only [List.map_cons]
        by_cases hpk : p.1 = k
        · rw [if_pos hpk]
          rw [List.find?]
          rw [show (decide ((k, v).1 = k2)) = false by
            simpa using fun hcon => hne hcon.symm]
          exact ih h
        · rw [if_neg hpk]
          rw [List.find?]
          rw [show (decide (p.1 = k2)) = false by simpa using hp]
          exact ih h
  · rw [if_neg hany]
    clear hany
    induction d with
    | nil => simp [List.find?] at h
    | cons p t ih =>
      rw [List.find?] at h
      rw [List.cons_append, List.find?]
      by_cases hp : p.1 = k2
      · rw [show (decide (p.1 = k2)) = true by simpa using hp] at h ⊢
        exact h
      · rw [show (decide (p.1 = k2)) = false by simpa using hp] at h ⊢
        exact ih h

theorem pyDictGet?_append_of_none {κ β : Type} [DecidableEq κ]
    (d : List (κ × β)) (k k2 : κ) (v : β) (h : pyDictGet? d k2 = none)
    (hne : k2 ≠ k) :
    pyDictGet? (d ++ [(k, v)]) k2 = none := by
  unfold pyDictGet? at h ⊢
  induction d with
  | nil =>
    simp only [List.nil_append, List.find?]
    rw [show (decide ((k, v).1 = k2)) = false by
      simpa using fun hcon => hne hcon.symm]
    rfl
  | cons p t ih =>
    rw [List.find?] at h
    rw [List.cons_append, List.find?]
    by_cases hp : p.1 = k2
    · rw [show (decide (p.1 = k2)) = true by simpa using hp] at h
      simp at h
    · rw [show (decide (p.1 = k2)) = false by simpa using hp] at h ⊢
      exact ih h

/-! ## The geonames search results and `get_most_likely_region`
From `src/src/2_predict_traits/predict_localities.py`.  A geonames search
result has a `country` and an `address` (canonical name); a falsy (empty)
country string models `if not top_region_hit.country`. -/

structure GeoRes where
  country : String
  address : String
deriving DecidableEq, Repr

/-- Python exceptions raised by the locality code. -/
inductive PyErr
  | attributeError
  | typeError
deriving DecidableEq, Repr

/-- `get_most_likely_region(location, geonames_result, geo_preds_regions)`.

The source first returns `None` for an empty `geonames_result`.  Otherwise it
builds `[(res.country, res.address, i) for res, i in enumerate(geonames_result)
if res.country in geo_preds_regions]`: `enumerate` yields `(index, item)`
pairs, so the unpacking `for res, i` binds `res` to the integer index, and the
very first evaluation of `res.country` on an `int` raises `AttributeError`.
Everything after that comprehension (including `get_top_region_hit`) is
therefore unreachable for a non-empty result list, which
`Except.error .attributeError` models. -/
def get_most_likely_region (location : String) (geonames_result : List GeoRes)
    (geo_preds_regions : List String) : Except PyErr (Option (String × String)) :=
  if geonames_result.isEmpty then Except.ok none
  else Except.error PyErr.attributeError

/-- A region entry: `{'subregions': {...}, 'found_as': [...]}`. -/
structure RegionEntry where
  subregions : List (String × List String)
  found_as : List String
deriving DecidableEq, Repr

/-- The geonames-cache lookup of `set_as_region_or_subregion`
(`predict_localities.py` lines 156-163): fetch the top-50 search results from
the cache, querying geonames and storing the result on a miss.  The geonames
service is the function parameter `geonames`. -/
def geonamesCacheFetch (geonames : String → List GeoRes) (loc : String)
    (cache : List (String × List GeoRes)) :
    List GeoRes × List (String × List GeoRes) :=
  match pyDictGet? cache loc with
  | none => (geonames loc, pyDictSet cache loc (geonames loc))
  | some geonames_result => (geonames_result, cache)

/-- `set_as_region_or_subregion(loc, regions)`: returns the updated cache
(mutated before any exception is raised) and either the updated regions
dictionary or the exception that propagates out of the call.  Unpacking the
`None` returned by `get_most_likely_region` for an empty search result raises
`TypeError`; the assignment logic below the unpacking is faithful to the
source but unreachable. -/
def set_as_region_or_subregion (geonames : String → List GeoRes) (loc : String)
    (cache : List (String × List GeoRes)) (regions : List (String × RegionEntry)) :
    List (String × List GeoRes) × Except PyErr (List (String × RegionEntry)) :=
  match get_most_likely_region loc (geonamesCacheFetch geonames loc cache).1
      (regions.map Prod.fst) with
  | Except.error e => ((geonamesCacheFetch geonames loc cache).2, Except.error e)
  | Except.ok none =>
    ((geonamesCacheFetch geonames loc cache).2, Except.error PyErr.typeError)
  | Except.ok (some (most_likely_region, normalized_location_name)) =>
    ((geonamesCacheFetch geonames loc cache).2, Except.ok (
      if most_likely_region = "" then
        pyDictSet regions loc ⟨[], [loc]⟩
      else if most_likely_region = normalized_location_name then
        pyDictSet regions most_likely_region ⟨[], [loc]⟩
      else
        match pyDictGet? regions most_likely_region with
        | some entry =>
          match pyDictGet? entry.subregions normalized_location_name with
          | none =>
            pyDictSet regions most_likely_region
              ⟨pyDictSet entry.subregions normalized_location_name [loc],
                entry.found_as⟩
          | some locs =>
            pyDictSet regions most_likely_region
              ⟨pyDictSet entry.subregions normalized_location_name (locs ++ [loc]),
                entry.found_as⟩
        | none =>
          pyDictSet regions most_likely_region
            ⟨[(normalized_location_name, [loc])], [most_likely_region]⟩))

/-! ## Claim C1 -/

/-- Claim C1 (code bug): `set_as_region_or_subregion` never assigns the
location to the regions dictionary — every call raises.  For an empty geonames
search result `get_most_likely_region` returns `None` and the caller's tuple
unpacking raises `TypeError` (so the `if not most_likely_region` fallback is
unreachable); for a non-empty result the backwards `enumerate` unpacking
raises `AttributeError`. -/
theorem set_as_region_or_subregion_always_raises
    (geonames : String → List GeoRes) (loc : String)
    (cache : List (String × List GeoRes))
    (regions : List (String × RegionEntry)) :
    (set_as_region_or_subregion geonames loc cache regions).2 =
      Except.error
        (if (geonamesCacheFetch geonames loc cache).1.isEmpty then
          PyErr.typeError
        else PyErr.attributeError) := by
  unfold set_as_region_or_subregion get_most_likely_region
  by_cases h : (geonamesCacheFetch geonames loc cache).1.isEmpty = true
  · rw [if_pos h]
    simp only [h, if_true]
  · rw [if_neg h]
    simp only [Bool.not_eq_true] at h
    simp only [h, Bool.false_eq_true, if_false]

/-! ## `get_gbif_normalized_name`
From `src/src/2_predict_traits/predict_microsp_and_host_names.py`.  The GBIF
backbone search `species.name_backbone` is the parameter `name_backbone`;
`none` models a falsy (empty) search result. -/

structure GbifHit where
  synonym : Bool
  canonicalName : String
deriving DecidableEq, Repr

def get_gbif_normalized_name (name_backbone : String → Option GbifHit)
    (sp : String) : String :=
  match name_backbone sp with
  | some gbif_hit =>
    if gbif_hit.synonym then gbif_hit.canonicalName
    else gbif_hit.canonicalName
  | none => sp

/-! ## `predict_polar_tube_coils`
From `src/src/2_predict_traits/predict_polar_tube_data.py`.  The spaCy
sentence splitting of the text is the parameter `sents` (the texts of
`nlp(txt).sents`), the search for the polar-tube regex `PT_REGEX` is the
parameter `pt_search`, and the matcher-based `extract_pt_coils` is the
parameter `extract_pt_coils`. -/

def predict_polar_tube_coils (sents : List String) (pt_search : String → Bool)
    (extract_pt_coils : String → String) : Option String :=
  let pt_sents := sents.filter pt_search
  if pt_sents.isEmpty then none
  else
    let pt_coil_preds := (pt_sents.map extract_pt_coils).filter (fun s => s ≠ "")
    if pt_coil_preds.isEmpty then none
    else some (String.intercalate " ||| " pt_coil_preds)

/-! ## Claim C2 -/

/-- Claim C2: when an external lookup finds nothing, each lookup function
falls back to its input or `None`: `get_gbif_normalized_name` returns the
species string unchanged on a falsy GBIF result, `get_most_likely_region`
returns `None` for an empty geonames result list, and
`predict_polar_tube_coils` returns `None` when no sentence matches the
polar-tube regex. -/
theorem absent_lookup_fallbacks :
    (∀ (name_backbone : String → Option GbifHit) (sp : String),
      name_backbone sp = none → get_gbif_normalized_name name_backbone sp = sp) ∧
    (∀ (loc : String) (geo_preds_regions : List String),
      get_most_likely_region loc [] geo_preds_regions = Except.ok none) ∧
    (∀ (sents : List String) (pt_search : String → Bool)
        (extract_pt_coils : String → String),
      (∀ s ∈ sents, pt_search s = false) →
      predict_polar_tube_coils sents pt_search extract_pt_coils = none) := by
  refine ⟨?_, ?_, ?_⟩
  · intro name_backbone sp h
    unfold get_gbif_normalized_name
    rw [h]
  · intro loc geo_preds_regions
    rfl
  · intro sents pt_search extract_pt_coils h
    unfold predict_polar_tube_coils
    have hempty : sents.filter pt_search = [] := by
      rw [List.filter_eq_nil_iff]
      intro s hs
      simp [h s hs]
    simp only [hempty]
    rfl

/-- Witness for C2 at concrete inputs. -/
theorem absent_lookup_fallbacks_witness :
    get_gbif_normalized_name (fun _ => none) "Nosema bombycis" = "Nosema bombycis" ∧
    get_most_likely_region "Toronto" [] ["Canada"] = Except.ok none ∧
    predict_polar_tube_coils ["No relevant data."] (fun _ => false)
      (fun _ => "") = none :=
  ⟨absent_lookup_fallbacks.1 _ _ rfl, absent_lookup_fallbacks.2.1 _ _,
    absent_lookup_fallbacks.2.2 _ _ _ (fun _ _ => rfl)⟩

/-! ## The spaCy caches
`get_cached_text` from `src/src/2_predict_traits/predict_host_infected_tissues.py`
(two caches, one per spaCy model, selected by `spacy_large`) and
`get_spacy_cached_text` from `src/src/2_predict_traits/predict_microsp_and_host_names.py`
(a single cache).  The spaCy models are function parameters; the processed
document type is a type parameter. -/

def get_cached_text {β : Type} (nlp_bio nlp_large : String → β) (txt : String)
    (spacy_large : Bool) (cacheBio cacheLarge : List (String × β)) :
    β × List (String × β) × List (String × β) :=
  if spacy_large then
    match pyDictGet? cacheLarge txt with
    | none => (nlp_large txt, cacheBio, pyDictSet cacheLarge txt (nlp_large txt))
    | some doc => (doc, cacheBio, cacheLarge)
  else
    match pyDictGet? cacheBio txt with
    | none => (nlp_bio txt, pyDictSet cacheBio txt (nlp_bio txt), cacheLarge)
    | some doc => (doc, cacheBio, cacheLarge)

def get_spacy_cached_text {β : Type} (nlp : String → β) (txt : String)
    (cache : List (String × β)) : β × List (String × β) :=
  match pyDictGet? cache txt with
  | none => (nlp txt, pyDictSet cache txt (nlp txt))
  | some doc => (doc, cache)

/-- Generic facts about the memoization pattern shared by the caches:
entries only grow, the key looked up is stored afterwards and maps to the
returned value, and a hit returns the stored value without modification. -/
theorem memo_step {β : Type} (nlp : String → β) (txt : String)
    (cache : List (String × β)) :
    (∀ k v, pyDictGet? cache k = some v →
      pyDictGet? (get_spacy_cached_text nlp txt cache).2 k = some v) ∧
    pyDictGet? (get_spacy_cached_text nlp txt cache).2 txt =
      some (get_spacy_cached_text nlp txt cache).1 ∧
    (∀ v, pyDictGet? cache txt = some v →
      get_spacy_cached_text nlp txt cache = (v, cache)) := by
  unfold get_spacy_cached_text
  rcases hget : pyDictGet? cache txt with _ | doc
  · refine ⟨?_, ?_, ?_⟩
    · intro k v hk
      have hne : k ≠ txt := by
        intro hcon
        rw [hcon, hget] at hk
        exact Option.noConfusion hk
      exact pyDictGet?_set_other cache txt k (nlp txt) v hne hk
    · exact pyDictGet?_set_self cache txt (nlp txt)
    · intro v hv
      exact Option.noConfusion hv
  · refine ⟨?_, ?_, ?_⟩
    · intro k v hk; exact hk
    · simpa using hget
    · intro v hv
      injection hv with hv2
      subst hv2
      rfl

/-! ## Claim C6 -/

/-- Claim C6: the geocoder and spaCy caches are pure, grow-only memoizations:
each of `get_cached_text`, `get_spacy_cached_text`, and the geonames-cache
lookup of `set_as_region_or_subregion` keeps every previously stored entry,
stores the key being looked up, maps it to the returned value, and on a hit
returns the stored value with the cache untouched. -/
theorem caches_are_pure_memoizations :
    (∀ (β : Type) (nlp : String → β) (txt : String)
        (cache : List (String × β)),
      (∀ k v, pyDictGet? cache k = some v →
        pyDictGet? (get_spacy_cached_text nlp txt cache).2 k = some v) ∧
      pyDictGet? (get_spacy_cached_text nlp txt cache).2 txt =
        some (get_spacy_cached_text nlp txt cache).1 ∧
      (∀ v, pyDictGet? cache txt = some v →
        get_spacy_cached_text nlp txt cache = (v, cache))) ∧
    (∀ (geonames : String → List GeoRes) (loc : String)
        (cache : List (String × List GeoRes)),
      (∀ k v, pyDictGet? cache k = some v →
        pyDictGet? (geonamesCacheFetch geonames loc cache).2 k = some v) ∧
      pyDictGet? (geonamesCacheFetch geonames loc cache).2 loc =
        some (geonamesCacheFetch geonames loc cache).1 ∧
      (∀ v, pyDictGet? cache loc = some v →
        geonamesCacheFetch geonames loc cache = (v, cache)) ∧
      (∀ (regions : List (String × RegionEntry)),
        (set_as_region_or_subregion geonames loc cache regions).1 =
          (geonamesCacheFetch geonames loc cache).2)) ∧
    (∀ (β : Type) (nlp_bio nlp_large : String → β) (txt : String)
        (spacy_large : Bool) (cacheBio cacheLarge : List (String × β)),
      (∀ k v, pyDictGet? cacheBio k = some v →
        pyDictGet? (get_cached_text nlp_bio nlp_large txt spacy_large cacheBio
          cacheLarge).2.1 k = some v) ∧
      (∀ k v, pyDictGet? cacheLarge k = some v →
        pyDictGet? (get_cached_text nlp_bio nlp_large txt spacy_large cacheBio
          cacheLarge).2.2 k = some v) ∧
      pyDictGet?
        (if spacy_large then
          (get_cached_text nlp_bio nlp_large txt spacy_large cacheBio
            cacheLarge).2.2
        else
          (get_cached_text nlp_bio nlp_large txt spacy_large cacheBio
            cacheLarge).2.1) txt =
        some (get_cached_text nlp_bio nlp_large txt spacy_large cacheBio
          cacheLarge).1 ∧
      (∀ v, pyDictGet? (if spacy_large then cacheLarge else cacheBio) txt =
          some v →
        get_cached_text nlp_bio nlp_large txt spacy_large cacheBio cacheLarge =
          (v, cacheBio, cacheLarge))) := by
  refine ⟨?_, ?_, ?_⟩
  · intro β nlp txt cache
    exact memo_step nlp txt cache
  · intro geonames loc cache
    have hkey : geonamesCacheFetch geonames loc cache =
        get_spacy_cached_text (β := List GeoRes) geonames loc cache := by
      unfold geonamesCacheFetch get_spacy_cached_text
      rcases pyDictGet? cache loc with _ | r
      · rfl
      · rfl
    refine ⟨?_, ?_, ?_, ?_⟩
    · rw [hkey]; exact (memo_step geonames loc cache).1
    · rw [hkey]; exact (memo_step geonames loc cache).2.1
    · rw [hkey]; exact (memo_step geonames loc cache).2.2
    · intro regions
      unfold set_as_region_or_subregion
      rcases get_most_likely_region loc (geonamesCacheFetch geonames loc cache).1
          (regions.map Prod.fst) with e | o
      · rfl
      · rcases o with _ | ⟨mlr, nname⟩
        · rfl
        · rfl
  · intro β nlp_bio nlp_large txt spacy_large cacheBio cacheLarge
    cases spacy_large with
    | true =>
      unfold get_cached_text
      simp only [if_true]
      rcases hget : pyDictGet? cacheLarge txt with _ | doc
      · refine ⟨fun k v hk => hk, ?_, ?_, ?_⟩
        · intro k v hk
          have hne : k ≠ txt := by
            intro hcon
            rw [hcon, hget] at hk
            exact Option.noConfusion hk
          exact pyDictGet?_set_other cacheLarge txt k (nlp_large txt) v hne hk
        · simpa using pyDictGet?_set_self cacheLarge txt (nlp_large txt)
        · intro v hv
          exact Option.noConfusion hv
      · refine ⟨fun k v hk => hk, fun k v hk => hk, by simpa using hget, ?_⟩
        intro v hv
        injection hv with hv2
        subst hv2
        rfl
    | false =>
      unfold get_cached_text
      simp only [Bool.false_eq_true, if_false]
      rcases hget : pyDictGet? cacheBio txt with _ | doc
      · refine ⟨?_, fun k v hk => hk, ?_, ?_⟩
        · intro k v hk
          have hne : k ≠ txt := by
            intro hcon
            rw [hcon, hget] at hk
            exact Option.noConfusion hk
          exact pyDictGet?_set_other cacheBio txt k (nlp_bio txt) v hne hk
        · simpa using pyDictGet?_set_self cacheBio txt (nlp_bio txt)
        · intro v hv
          exact Option.noConfusion hv
      · refine ⟨fun k v hk => hk, fun k v hk => hk, by simpa using hget, ?_⟩
        intro v hv
        injection hv with hv2
        subst hv2
        rfl

/-- Witness for C6 at concrete caches and lookups. -/
theorem caches_are_pure_memoizations_witness :
    pyDictGet? (get_spacy_cached_text String.length "b" [("a", 1)]).2 "a" =
      some 1 ∧
    geonamesCacheFetch (fun _ => []) "Toronto"
        [("Toronto", [⟨"Canada", "Toronto"⟩])] =
      ([⟨"Canada", "Toronto"⟩], [("Toronto", [⟨"Canada", "Toronto"⟩])]) ∧
    get_cached_text String.length (fun _ => 7) "a" true [] [("a", 7)] =
      (7, [], [("a", 7)]) :=
  ⟨(caches_are_pure_memoizations.1 Nat String.length "b" [("a", 1)]).1 "a" 1 rfl,
    ((caches_are_pure_memoizations.2.1 (fun _ => []) "Toronto"
      [("Toronto", [⟨"Canada", "Toronto"⟩])]).2.2.1 _ rfl),
    ((caches_are_pure_memoizations.2.2 Nat String.length (fun _ => 7) "a" true
      [] [("a", 7)]).2.2.2 7 rfl)⟩

/-! ## `get_spacy_preds` and `remove_leading_determinant`
From `src/src/2_predict_traits/predict_localities.py`.  A spaCy locality span
is modelled by the data the code consumes: its entity label, its position
(making distinct mentions distinct values, as spaCy spans are), its text, the
part-of-speech tag of its first token, and the text with the first token
removed. -/

structure LocSpan where
  start : Nat
  label : String
  text : String
  firstPos : String
  textTail : String
deriving DecidableEq, Repr

def SPACY_LOCALITIES : List String := ["FAC", "GPE", "LOC"]

/-- `remove_leading_determinant`: drop the leading token when it is a
determinant. -/
def remove_leading_determinant (span : LocSpan) : String :=
  if span.firstPos = "DET" then span.textTail else span.text

/-- The dedup loop of `get_spacy_preds`:

    for pred in spacy_preds:
        if remove_leading_determinant(pred) in loc_names:
            spacy_preds.remove(pred)
        else:
            loc_names.append(remove_leading_determinant(pred))

Python's `for` iterates by an internal index that advances after each body
run even when `list.remove` (modelled by `List.erase`) has shortened the
list, so the element after a removed one is skipped.  The loop runs at most
`spacy_preds.length` iterations; `fuel` bounds the recursion and equals that
length at the top-level call, so the fuel-exhaustion branch (which returns
the list unchanged, exactly as the loop does once the index passes the end)
is never the deciding one. -/
def dedupLoop : Nat → List LocSpan → Nat → List String → List LocSpan
  | 0, preds, _, _ => preds
  | fuel + 1, preds, i, loc_names =>
    if h : i < preds.length then
      if remove_leading_determinant preds[i] ∈ loc_names then
        dedupLoop fuel (preds.erase preds[i]) (i + 1) loc_names
      else
        dedupLoop fuel preds (i + 1)
          (loc_names ++ [remove_leading_determinant preds[i]])
    else preds

/-- `get_spacy_preds`: filter the spaCy entities (the model output is the
parameter) down to locality labels, then run the dedup loop. -/
def get_spacy_preds (ents : List LocSpan) : List LocSpan :=
  dedupLoop (ents.filter (fun ent => ent.label ∈ SPACY_LOCALITIES)).length
    (ents.filter (fun ent => ent.label ∈ SPACY_LOCALITIES)) 0 []

/-! ## Lemmas for claim C8 -/

theorem drop_append_length {α : Type} :
    ∀ (A B : List α) (k : Nat), (A ++ B).drop (A.length + k) = B.drop k := by
  intro A
  induction A with
  | nil => intro B k; simp
  | cons a t ih =>
    intro B k
    simpa [Nat.succ_add] using ih B k

/-- When no remaining prediction duplicates a seen name and the remaining
names are pairwise distinct, the loop keeps the list unchanged. -/
theorem dedupLoop_no_dup :
    ∀ (fuel : Nat) (preds : List LocSpan) (i : Nat) (names : List String),
      (preds.map remove_leading_determinant).Nodup →
      (∀ n ∈ names, n ∉ (preds.drop i).map remove_leading_determinant) →
      dedupLoop fuel preds i names = preds := by
  intro fuel
  induction fuel with
  | zero => intro preds i names _ _; rfl
  | succ fuel ih =>
    intro preds i names h1 h2
    unfold dedupLoop
    by_cases h : i < preds.length
    · rw [dif_pos h]
      have hdrop : preds.drop i = preds[i] :: preds.drop (i + 1) :=
        List.drop_eq_getElem_cons h
      have hnotin : remove_leading_determinant preds[i] ∉ names := by
        intro hcon
        apply h2 _ hcon
        rw [hdrop, List.map_cons]
        exact List.mem_cons_self _ _
      rw [if_neg hnotin]
      apply ih
      · exact h1
      · intro n hn
        have hsplit : preds.map remove_leading_determinant =
            (preds.take i).map remove_leading_determinant ++
              remove_leading_determinant preds[i] ::
                (preds.drop (i + 1)).map remove_leading_determinant := by
          conv_lhs => rw [← List.take_append_drop i preds]
          rw [List.map_append, hdrop, List.map_cons]
        rcases List.mem_append.mp hn with hn1 | hn1
        · intro hcon
          apply h2 n hn1
          rw [hdrop, List.map_cons]
          exact List.mem_cons_of_mem _ hcon
        · rw [List.mem_singleton] at hn1
          subst hn1
          have h4 := h1
          rw [hsplit, List.nodup_middle, List.nodup_cons] at h4
          intro hcon
          exact h4.1 (List.mem_append.mpr (Or.inr hcon))
    · rw [dif_neg h]

/-- Run of the loop over a prediction list with exactly one later duplicate
`d` (removing `d` leaves the normalized names pairwise distinct): the result
has pairwise distinct normalized names. -/
theorem dedupLoop_one_dup
    (A : List LocSpan) (d : LocSpan) (B : List LocSpan)
    (hnd : (((A ++ B).map remove_leading_determinant)).Nodup)
    (hd : remove_leading_determinant d ∈ A.map remove_leading_determinant) :
    ∀ (fuel i : Nat) (names : List String),
      i ≤ A.length →
      names = (((A ++ d :: B).take i).map remove_leading_determinant) →
      (A ++ d :: B).length - i ≤ fuel →
      ((dedupLoop fuel (A ++ d :: B) i names).map
        remove_leading_determinant).Nodup := by
  have hlen : (A ++ d :: B).length = A.length + B.length + 1 := by
    simp [List.length_append]
    omega
  have hAnodup : (A.map remove_leading_determinant).Nodup := by
    rw [List.map_append, List.nodup_append] at hnd
    exact hnd.1
  have hBnodup : (B.map remove_leading_determinant).Nodup := by
    rw [List.map_append, List.nodup_append] at hnd
    exact hnd.2.1
  have hdisj : ∀ n ∈ A.map remove_leading_determinant,
      n ∉ B.map remove_leading_determinant := by
    rw [List.map_append, List.nodup_append] at hnd
    exact fun n hn => hnd.2.2 hn
  intro fuel
  induction fuel with
  | zero =>
    intro i names hi _ hfuel
    omega
  | succ fuel ih =>
    intro i names hi hnames hfuel
    have hlt : i < (A ++ d :: B).length := by omega
    unfold dedupLoop
    rw [dif_pos hlt]
    rcases Nat.lt_or_eq_of_le hi with hcase | hcase
    · -- still inside `A`: the current name is fresh, keep and continue
      have hget : (A ++ d :: B)[i] = A[i] := List.getElem_append_left hcase
      have htake : (A ++ d :: B).take i = A.take i :=
        List.take_append_of_le_length (Nat.le_of_lt hcase)
      have hAsplit : A.map remove_leading_determinant =
          (A.take i).map remove_leading_determinant ++
            remove_leading_determinant A[i] ::
              (A.drop (i + 1)).map remove_leading_determinant := by
        conv_lhs => rw [← List.take_append_drop i A]
        rw [List.map_append, List.drop_eq_getElem_cons hcase, List.map_cons]
      have hfresh : remove_leading_determinant ((A ++ d :: B)[i]) ∉ names := by
        rw [hget, hnames, htake]
        have h4 := hAnodup
        rw [hAsplit, List.nodup_middle, List.nodup_cons] at h4
        intro hcon
        exact h4.1 (List.mem_append.mpr (Or.inl hcon))
      rw [if_neg hfresh]
      apply ih (i + 1) _ hcase
      · rw [hnames, htake,
          List.take_append_of_le_length (show i + 1 ≤ A.length from hcase),
          ← List.take_concat_get A i hcase, List.concat_eq_append,
          List.map_append]
        simp [hget]
      · omega
    · -- at the duplicate `d`: it is removed, and the rest runs clean
      have hgetd : (A ++ d :: B)[i] = d := by
        subst hcase
        rw [List.getElem_append_right (Nat.le_refl _)]
        simp
      have hnamesA : names = A.map remove_leading_determinant := by
        rw [hnames, hcase, List.take_left]
      have hin : remove_leading_determinant ((A ++ d :: B)[i]) ∈ names := by
        rw [hgetd, hnamesA]
        exact hd
      rw [if_pos hin, hgetd]
      by_cases hdA : d ∈ A
      · -- the first occurrence of the value `d` sits inside `A`
        rcases List.exists_erase_eq hdA with ⟨A1, A2, hdA1, hAeq, hAer⟩
        have herase : (A ++ d :: B).erase d = (A1 ++ A2) ++ d :: B := by
          rw [List.erase_append_left _ hdA, hAer]
        rw [herase]
        have hAmap : A.map remove_leading_determinant =
            A1.map remove_leading_determinant ++
              remove_leading_determinant d ::
                A2.map remove_leading_determinant := by
          rw [hAeq, List.map_append, List.map_cons]
        have hABmap : (A ++ B).map remove_leading_determinant =
            A1.map remove_leading_determinant ++
              remove_leading_determinant d ::
                (A2.map remove_leading_determinant ++
                  B.map remove_leading_determinant) := by
          rw [List.map_append, hAmap, List.append_assoc, List.cons_append]
        have hnd2 := hnd
        rw [hABmap, List.nodup_middle, List.nodup_cons] at hnd2
        have hgoal : (((A1 ++ A2) ++ d :: B).map
            remove_leading_determinant).Nodup := by
          rw [List.map_append, List.map_append, List.map_cons]
          rw [List.nodup_middle, List.nodup_cons]
          constructor
          · intro hcon
            apply hnd2.1
            rcases List.mem_append.mp hcon with h5 | h5
            · rcases List.mem_append.mp h5 with h6 | h6
              · exact List.mem_append.mpr (Or.inl h6)
              · exact List.mem_append.mpr (Or.inr (List.mem_append.mpr (Or.inl h6)))
            · exact List.mem_append.mpr (Or.inr (List.mem_append.mpr (Or.inr h5)))
          · rw [List.append_assoc]
            exact hnd2.2
        rw [dedupLoop_no_dup fuel _ _ _ hgoal]
        · exact hgoal
        · intro n hn
          have hnA : n ∈ A.map remove_leading_determinant := by
            rw [← hnamesA]; exact hn
          have hdropeq : ((A1 ++ A2) ++ d :: B).drop (i + 1) = B.drop 1 := by
            have hlen2 : ((A1 ++ A2) ++ [d]).length = i := by
              have : A.length = A1.length + A2.length + 1 := by
                rw [hAeq]; simp [List.length_append]; omega
              simp [List.length_append]
              omega
            calc ((A1 ++ A2) ++ d :: B).drop (i + 1)
                = (((A1 ++ A2) ++ [d]) ++ B).drop (((A1 ++ A2) ++ [d]).length + 1) := by
                  rw [hlen2]
                  congr 1
                  simp [List.append_assoc]
              _ = B.drop 1 := drop_append_length _ _ _
          rw [hdropeq]
          intro hcon
          have hnB : n ∈ B.map remove_leading_determinant := by
            have hsub : (B.drop 1).Sublist B := List.drop_sublist 1 B
            rcases List.mem_map.mp hcon with ⟨b, hb1, hb2⟩
            exact List.mem_map.mpr ⟨b, hsub.subset hb1, hb2⟩
          exact hdisj n hnA hnB
      · -- the value `d` occurs only at position `i`
        have herase : (A ++ d :: B).erase d = A ++ B := by
          rw [List.erase_append_right _ hdA, List.erase_cons_head]
        rw [herase]
        rw [dedupLoop_no_dup fuel _ _ _ hnd]
        · exact hnd
        · intro n hn
          have hnA : n ∈ A.map remove_leading_determinant := by
            rw [← hnamesA]; exact hn
          have hdropeq : (A ++ B).drop (i + 1) = B.drop 1 := by
            rw [hcase]
            exact drop_append_length A B 1
          rw [hdropeq]
          intro hcon
          have : n ∈ B.map remove_leading_determinant := by
            have hsub : (B.drop 1).Sublist B := List.drop_sublist 1 B
            rcases List.mem_map.mp hcon with ⟨b, hb1, hb2⟩
            exact List.mem_map.mpr ⟨b, hsub.subset hb1, hb2⟩
          exact hdisj n hnA this

/-! ## Claim C8 -/

/-- Counterexample to C8 as stated: three locality predictions sharing the
text `Alps` leave two spans with the same normalized text in the returned
list, because the loop removes elements from the list it is iterating over
and the element after a removed one is never examined. -/
theorem get_spacy_preds_dup_counterexample :
    ¬ ((get_spacy_preds
        [⟨0, "LOC", "Alps", "PROPN", ""⟩, ⟨3, "LOC", "Alps", "PROPN", ""⟩,
          ⟨6, "LOC", "Alps", "PROPN", ""⟩]).map
        remove_leading_determinant).Nodup := by
  decide

/-- Claim C8 (amended): the list returned by `get_spacy_preds` has pairwise
distinct normalized texts provided at most one locality prediction repeats
the normalized text of an earlier one (the predictions are distinct, or one
prediction `d` whose removal leaves them distinct repeats an earlier text);
with two or more repeated mentions, later duplicates can survive. -/
theorem get_spacy_preds_unique (ents : List LocSpan)
    (h : ((ents.filter (fun ent => ent.label ∈ SPACY_LOCALITIES)).map
        remove_leading_determinant).Nodup ∨
      ∃ A d B, ents.filter (fun ent => ent.label ∈ SPACY_LOCALITIES) =
          A ++ d :: B ∧
        (((A ++ B).map remove_leading_determinant)).Nodup ∧
        remove_leading_determinant d ∈ A.map remove_leading_determinant) :
    ((get_spacy_preds ents).map remove_leading_determinant).Nodup := by
  unfold get_spacy_preds
  rcases h with h | ⟨A, d, B, hdec, hnd, hd⟩
  · rw [dedupLoop_no_dup _ _ _ _ h (fun n hn => absurd hn (List.not_mem_nil n))]
    exact h
  · rw [hdec]
    exact dedupLoop_one_dup A d B hnd hd _ 0 [] (Nat.zero_le _) rfl
      (Nat.sub_le _ _)

/-- Witness for C8 (amended) at a concrete input with a single duplicated
mention. -/
theorem get_spacy_preds_unique_witness :
    ((get_spacy_preds
        [⟨0, "LOC", "Alps", "PROPN", ""⟩, ⟨3, "LOC", "Alps", "PROPN", ""⟩,
          ⟨9, "LOC", "Danube", "PROPN", ""⟩]).map
      remove_leading_determinant).Nodup :=
  get_spacy_preds_unique _
    (Or.inr ⟨[⟨0, "LOC", "Alps", "PROPN", ""⟩], ⟨3, "LOC", "Alps", "PROPN", ""⟩,
      [⟨9, "LOC", "Danube", "PROPN", ""⟩], by decide, by decide, by decide⟩)

/-! ## Missing-value handling before per-row processing (claim C3)
Dataframes are lists of rows; a missing (NaN) cell is `none`.

* `predict_host_infected_tissues.py` lines 443-445: `fillna('')` on
  `infection_site`, `hosts_natural`, `hosts_experimental`, `title_abstract`,
  then `clean_recorded_infection_sites` is applied row-wise.
* `taxonerd_predict_species.py` lines 26-27: `fillna('')` on
  `first_paper_title` and `abstract`, then `predict_species` is mapped over
  both columns.
* `2_predict_traits/spacy_extract_traits.py` lines 27-31: rows whose
  `first_paper_title` is null are dropped, and missing `abstract` values are
  filled with `''`; `clean_text` is then mapped over both columns. -/

structure TissueRow where
  infection_site : Option String
  hosts_natural : Option String
  hosts_experimental : Option String
  title_abstract : Option String
deriving DecidableEq, Repr

structure AbstractRow where
  first_paper_title : Option String
  abstract : Option String
deriving DecidableEq, Repr

def tissueFillna (df : List TissueRow) : List TissueRow :=
  df.map (fun r =>
    ⟨some (r.infection_site.getD ""), some (r.hosts_natural.getD ""),
      some (r.hosts_experimental.getD ""), some (r.title_abstract.getD "")⟩)

/-- The row-wise application of `clean_recorded_infection_sites` (the
per-row function itself is a parameter) after the `fillna` step. -/
def tissueScript (clean : String → String → String → String)
    (df : List TissueRow) : List String :=
  (tissueFillna df).map (fun r =>
    clean (r.infection_site.getD "") (r.hosts_natural.getD "")
      (r.hosts_experimental.getD ""))

def abstractsFillna (df : List AbstractRow) : List AbstractRow :=
  df.map (fun r =>
    ⟨some (r.first_paper_title.getD ""), some (r.abstract.getD "")⟩)

/-- The row-wise application of TaxoNERD's `predict_species` (a parameter)
to titles and abstracts after the `fillna` step. -/
def taxonerdScript (predict_species : String → String) (df : List AbstractRow) :
    List (String × String) :=
  (abstractsFillna df).map (fun r =>
    (predict_species (r.first_paper_title.getD ""),
      predict_species (r.abstract.getD "")))

/-- `spacy_extract_traits.py`: drop rows without a title, fill missing
abstracts with the empty string. -/
def spacyTraitsPreprocess (df : List AbstractRow) : List AbstractRow :=
  (df.filter (fun r => r.first_paper_title.isSome)).map
    (fun r => ⟨r.first_paper_title, some (r.abstract.getD "")⟩)

/-- The row-wise `clean_text` of titles and abstracts after preprocessing. -/
def spacyTraitsScript (df : List AbstractRow) : List (String × String) :=
  (spacyTraitsPreprocess df).map (fun r =>
    (String.mk (clean_text (r.first_paper_title.getD "").data),
      String.mk (clean_text (r.abstract.getD "").data)))

/-! ## Claim C3 -/

/-- Counterexample to C3 as stated: in `spacy_extract_traits.py` a row whose
`first_paper_title` is missing is dropped, so its missing values are not
replaced by empty strings (row-wise filling would keep the row with empty
strings). -/
theorem spacy_traits_missing_title_dropped :
    spacyTraitsPreprocess [⟨none, none⟩] = [] ∧
    abstractsFillna [⟨none, none⟩] = [⟨some "", some ""⟩] ∧
    ([] : List AbstractRow) ≠ [⟨some "", some ""⟩] := by
  refine ⟨rfl, rfl, ?_⟩
  decide

/-- Claim C3 (amended): in `predict_host_infected_tissues.py` and
`taxonerd_predict_species.py` every missing value of the consumed text
columns is replaced by the empty string before row-wise processing, while in
`spacy_extract_traits.py` rows with a missing `first_paper_title` are dropped
and missing abstracts are filled; in all three scripts every row reaching the
per-row extraction functions carries only present strings, and the processing
step reads exactly the filled values of the original rows. -/
theorem fillna_before_processing :
    (∀ (df : List TissueRow) (r : TissueRow), r ∈ tissueFillna df →
      r.infection_site ≠ none ∧ r.hosts_natural ≠ none ∧
      r.hosts_experimental ≠ none ∧ r.title_abstract ≠ none) ∧
    (∀ (df : List AbstractRow) (r : AbstractRow), r ∈ abstractsFillna df →
      r.first_paper_title ≠ none ∧ r.abstract ≠ none) ∧
    (∀ (df : List AbstractRow) (r : AbstractRow), r ∈ spacyTraitsPreprocess df →
      r.first_paper_title ≠ none ∧ r.abstract ≠ none) ∧
    (∀ (clean : String → String → String → String) (df : List TissueRow),
      tissueScript clean df = df.map (fun r =>
        clean (r.infection_site.getD "") (r.hosts_natural.getD "")
          (r.hosts_experimental.getD ""))) ∧
    (∀ (predict_species : String → String) (df : List AbstractRow),
      taxonerdScript predict_species df = df.map (fun r =>
        (predict_species (r.first_paper_title.getD ""),
          predict_species (r.abstract.getD "")))) ∧
    (∀ (df : List AbstractRow),
      spacyTraitsScript df = (df.filter (fun r => r.first_paper_title.isSome)).map
        (fun r => (String.mk (clean_text (r.first_paper_title.getD "").data),
          String.mk (clean_text (r.abstract.getD "").data)))) := by
  refine ⟨?_, ?_, ?_, ?_, ?_, ?_⟩
  · intro df r hr
    rcases List.mem_map.mp hr with ⟨r0, -, rfl⟩
    exact ⟨Option.noConfusion, Option.noConfusion, Option.noConfusion,
      Option.noConfusion⟩
  · intro df r hr
    rcases List.mem_map.mp hr with ⟨r0, -, rfl⟩
    exact ⟨Option.noConfusion, Option.noConfusion⟩
  · intro df r hr
    rcases List.mem_map.mp hr with ⟨r0, hr0, rfl⟩
    refine ⟨?_, Option.noConfusion⟩
    have h2 := (List.mem_filter.mp hr0).2
    intro hcon
    rw [hcon] at h2
    simp at h2
  · intro clean df
    unfold tissueScript tissueFillna
    rw [List.map_map]
    rfl
  · intro predict_species df
    unfold taxonerdScript abstractsFillna
    rw [List.map_map]
    rfl
  · intro df
    unfold spacyTraitsScript spacyTraitsPreprocess
    rw [List.map_map]
    rfl

/-- Witness for C3 (amended) at a concrete dataframe. -/
theorem fillna_before_processing_witness :
    (TissueRow.infection_site ⟨some "", some "", some "", some ""⟩ ≠ none) ∧
    (AbstractRow.first_paper_title ⟨some "t", some ""⟩ ≠ none) :=
  ⟨((fillna_before_processing.1 [⟨none, some "", some "", none⟩]
      ⟨some "", some "", some "", some ""⟩) (by decide)).1,
    ((fillna_before_processing.2.2.1 [⟨some "t", none⟩] ⟨some "t", some ""⟩)
      (by decide)).1⟩

/-! ## spaCy documents for `predict_host_infected_tissues.py`
A processed document is modelled by the data the script consumes: its token
texts, its entity spans, its sentence spans (with per-token lemma/POS for the
`Matcher`), and the text / UMLS candidates that the models attach to any
token slice.  `kb_ents` entries are `(cui, score)` pairs; the scores are
never inspected, only the identifier `s[0]`. -/

/-- `str.lower()` (ASCII). -/
def pyLower (s : String) : String := String.mk (s.data.map Char.toLower)

/-- Python `a in b` for strings: substring test. -/
def pyInStr (a b : String) : Bool := decide (a.data <:+: b.data)

structure PTok where
  text : String
  lemma_ : String
  pos_ : String
deriving DecidableEq, Repr

structure PEnt where
  start : Nat
  stop : Nat
  label : String
  text : String
  kb_ents : List (String × Int)
deriving DecidableEq, Repr

structure PSent where
  start : Nat
  tokens : List PTok
  ents : List PEnt
deriving DecidableEq, Repr

structure TDoc where
  tokens : List String
  ents : List PEnt
  sents : List PSent
  sliceText : Nat → Nat → String
  sliceKb : Nat → Nat → List (String × Int)

/-- `doc[a:b]` as a span (its label plays no role). -/
def mkSlice (doc : TDoc) (a b : Nat) : PEnt :=
  ⟨a, b, "", doc.sliceText a b, doc.sliceKb a b⟩

def INFECTION_SITE_ENTITIES : List String :=
  ["ORGAN", "TISSUE", "ORGANISM_SUBDIVISION", "MULTI_TISSUE_STRUCTURE",
    "CELL", "CELLULAR_COMPONENT"]

/-- `is_overlapping_spans`: token ranges `[start, end]` intersect (the code
includes `end`, one past the span, in each range). -/
def is_overlapping_spans (s1 s2 : PEnt) : Bool :=
  decide (0 < ((pyRange s1.start (s1.stop + 1)).filter
    (fun n => n ∈ pyRange s2.start (s2.stop + 1))).length)

/-- `get_overlapping_entity`: the first entity overlapping the site, or the
site itself. -/
def get_overlapping_entity (site : PEnt) (ents : List PEnt) : PEnt :=
  match ents.find? (fun ent => is_overlapping_spans ent site) with
  | some ent => ent
  | none => site

/-- `get_site_spans`: slice the document at its `;` tokens. -/
def siteSpansLoop (doc : TDoc) : List Nat → Nat → List PEnt
  | [], _ => []
  | i :: rest, curr => mkSlice doc curr i :: siteSpansLoop doc rest (i + 1)

def get_site_spans (doc : TDoc) : List PEnt :=
  let semicolon_posns := (List.range doc.tokens.length).filter
    (fun i => doc.tokens.getD i "" = ";")
  match semicolon_posns.getLast? with
  | some last =>
    siteSpansLoop doc semicolon_posns 0 ++
      [mkSlice doc (last + 1) doc.tokens.length]
  | none => [mkSlice doc 0 doc.tokens.length]

/-- `get_intersecting_umls_names`: identifiers of the recorded-site UMLS
candidates that also appear among the predicted-site candidates. -/
def get_intersecting_umls_names (recorded_names pred_names : List (String × Int)) :
    List String :=
  if recorded_names.isEmpty then []
  else (recorded_names.filter
    (fun s => s.1 ∈ pred_names.map Prod.fst)).map Prod.fst

/-- The per-site dictionary values of `resolve_normalized_names`:
`{'umls_names': ..., 'needs_normalization': ..., 'canonical_name': ...}`. -/
structure SiteInfo where
  umls_names : List (String × Int)
  needs_normalization : Bool
  canonical_name : String
deriving DecidableEq, Repr

/-- One turn of the inner `for pred in pred_sites` loop of
`resolve_normalized_names`, for the current recorded site `site_i` whose
dictionary entry is tracked in the state (all reads and writes for the
recorded site go through its own key).  `linker` is
`linker_large.kb.cui_to_entity[..][1]`. -/
def resolveStep (linker : String → String) (site_i : PEnt) (pred : PEnt)
    (st : SiteInfo × List (PEnt × SiteInfo)) :
    SiteInfo × List (PEnt × SiteInfo) :=
  match pyDictGet? st.2 pred with
  | none => st  -- unreachable: `pred` is one of the dictionary's keys
  | some predInfo =>
    if pyInStr (pyLower site_i.text) (pyLower pred.text) then
      ({ st.1 with needs_normalization := false },
        pyDictSet st.2 pred
          { predInfo with needs_normalization := false,
                          canonical_name := site_i.text })
    else
      match get_intersecting_umls_names st.1.umls_names predInfo.umls_names with
      | [] => st
      | c :: _ =>
        ({ st.1 with canonical_name := linker c, needs_normalization := false },
          pyDictSet st.2 pred
            { predInfo with canonical_name := linker c,
                            needs_normalization := false })

def resolveInner (linker : String → String) (site_i : PEnt) :
    List PEnt → SiteInfo × List (PEnt × SiteInfo) →
      SiteInfo × List (PEnt × SiteInfo)
  | [], st => st
  | pred :: rest, st =>
    resolveInner linker site_i rest (resolveStep linker site_i pred st)

/-- The outer loop of `resolve_normalized_names` over the recorded site
spans: replace each site with an overlapping tagged entity if any, create its
dictionary entry, then run the inner loop over the predicted sites. -/
def resolveOuter (linker : String → String) (ents_of_interest : List PEnt) :
    List PEnt → List (PEnt × SiteInfo) → List (PEnt × SiteInfo) →
      List (PEnt × SiteInfo) × List (PEnt × SiteInfo)
  | [], site_names, pred_sites => (site_names, pred_sites)
  | site0 :: rest, site_names, pred_sites =>
    let site_i := get_overlapping_entity site0 ents_of_interest
    let init : SiteInfo := ⟨site_i.kb_ents, true, site_i.text⟩
    let inner := resolveInner linker site_i (pred_sites.map Prod.fst)
      (init, pred_sites)
    resolveOuter linker ents_of_interest rest
      (pyDictSet (pyDictSet site_names site_i init) site_i inner.1) inner.2

/-- `list(set(...))`: Python's set iteration order is unspecified; it is
modelled as first-occurrence order, which depends only on the value list. -/
def pySetList (l : List String) : List String :=
  l.foldl (fun acc x => if x ∈ acc then acc else acc ++ [x]) []

/-- The pure part of `resolve_normalized_names`, given the already processed
document of the recorded sites. -/
def resolveFromDoc (linker : String → String)
    (pred_sites : List (PEnt × SiteInfo)) (doc : TDoc) : String × String :=
  let sites0 := get_site_spans doc
  let ents_of_interest := doc.ents.filter
    (fun ent => ent.label ∈ INFECTION_SITE_ENTITIES)
  let res := resolveOuter linker ents_of_interest sites0 [] pred_sites
  (String.intercalate "; " (pySetList (res.1.map (fun p => p.2.canonical_name))),
    String.intercalate "; " (pySetList (res.2.map (fun p => p.2.canonical_name))))

/-- `resolve_normalized_names(pred_sites, sites_formatted)`: process the
recorded sites with the (cached) bionlp13cg model, normalize them against the
predicted sites, and return the two `'; '`-joined strings (the updated caches
are returned explicitly). -/
def resolve_normalized_names (nlp_bio nlp_large : String → TDoc)
    (linker : String → String) (pred_sites : List (PEnt × SiteInfo))
    (sites_formatted : String) (cacheBio cacheLarge : List (String × TDoc)) :
    (String × String) × List (String × TDoc) × List (String × TDoc) :=
  (resolveFromDoc linker pred_sites
      (get_cached_text nlp_bio nlp_large sites_formatted false cacheBio
        cacheLarge).1,
    (get_cached_text nlp_bio nlp_large sites_formatted false cacheBio
      cacheLarge).2.1,
    (get_cached_text nlp_bio nlp_large sites_formatted false cacheBio
      cacheLarge).2.2)

/-! ## `predict_and_normalize_infection_sites_2`
The sentence `Matcher` built from `infection_pattern` matches a verb whose
lemma is one of `INFECTION_LEMMAS`; `MICROSPORIDIA_PARTS` reproduces the
source list, including the entries merged by Python's implicit string
concatenation (`'spore' 'meront'` and `'sporonts' 'polaroplast'`). -/

def INFECTION_LEMMAS : List String :=
  ["find", "parasitize", "infect", "describe", "localize", "invade",
    "appear", "parasite"]

def matcherInfection (sent : PSent) : Bool :=
  sent.tokens.any (fun tok => tok.pos_ = "VERB" && tok.lemma_ ∈ INFECTION_LEMMAS)

def MICROSPORIDIA_PARTS : List String :=
  ["polar tube", "polar filament", "sporoblast", "sporemeront", "meronts",
    "sporoplasm", "sporophorous vesicles", "sporont", "sporontspolaroplast",
    "anchoring disc", "lamellar body", "anchoring disk", "endospore",
    "exospore", "posterior vacuole", "sporoblasts", "meiospores", "meiospore",
    "macrospore", "macrospores", "microspore", "microspores", "basal",
    "spores", "schizogony", "sporogony"]

/-- `is_unlabelled_by_bionlp13cg`: no single token of the given sentences
whose lower-cased text equals the entity's lower-cased text overlaps an
entity of its sentence (the temporary matcher matches one token by `LOWER`;
`sent[j:j+1]` is a doc-level span starting at `sent.start + j`). -/
def is_unlabelled_by_bionlp13cg (ent : PEnt)
    (bio_infection_sents : List PSent) : Bool :=
  !(bio_infection_sents.any (fun sent =>
    (List.range sent.tokens.length).any (fun j =>
      (pyLower (sent.tokens.getD j ⟨"", "", ""⟩).text == pyLower ent.text) &&
        sent.ents.any (fun sent_ent =>
          is_overlapping_spans ⟨sent.start + j, sent.start + j + 1, "", "", []⟩
            sent_ent))))

/-- The prediction half of `predict_and_normalize_infection_sites_2`, given
the two processed documents of the text: collect probable infection-site
entities from the bionlp13cg infection sentences, pick the en_core_sci_lg
entities with UMLS links that overlap them or are unlabelled by bionlp13cg,
and build the `pred_sites` dictionary. -/
def predictFromDocs (bioDoc largeDoc : TDoc) : List (PEnt × SiteInfo) :=
  let bio_infection_sents := bioDoc.sents.filter matcherInfection
  let large_infection_sents := largeDoc.sents.filter matcherInfection
  let bio_infection_entities := bio_infection_sents.foldl
    (fun acc sent => acc ++ sent.ents.filter (fun ent =>
      ent.label ∈ INFECTION_SITE_ENTITIES &&
        !(pyLower ent.text ∈ MICROSPORIDIA_PARTS))) []
  let large_infection_entities := large_infection_sents.foldl
    (fun acc sent => acc ++ sent.ents.filter (fun ent =>
      !ent.kb_ents.isEmpty &&
        (bio_infection_entities.any
          (fun bio_ent => is_overlapping_spans ent bio_ent) ||
          is_unlabelled_by_bionlp13cg ent bio_infection_sents))) []
  large_infection_entities.foldl
    (fun acc ent => pyDictSet acc ent ⟨ent.kb_ents, true, ent.text⟩) []

/-- `predict_and_normalize_infection_sites_2(txt, sites_formatted)`: fetch
the two cached documents of the text, build the predicted sites, and resolve
them against the recorded sites. -/
def predict_and_normalize_infection_sites_2 (nlp_bio nlp_large : String → TDoc)
    (linker : String → String) (txt sites_formatted : String)
    (cacheBio cacheLarge : List (String × TDoc)) :
    (String × String) × List (String × TDoc) × List (String × TDoc) :=
  resolve_normalized_names nlp_bio nlp_large linker
    (predictFromDocs
      (get_cached_text nlp_bio nlp_large txt false cacheBio cacheLarge).1
      (get_cached_text nlp_bio nlp_large txt true
        (get_cached_text nlp_bio nlp_large txt false cacheBio cacheLarge).2.1
        (get_cached_text nlp_bio nlp_large txt false cacheBio
          cacheLarge).2.2).1)
    sites_formatted
    (get_cached_text nlp_bio nlp_large txt true
      (get_cached_text nlp_bio nlp_large txt false cacheBio cacheLarge).2.1
      (get_cached_text nlp_bio nlp_large txt false cacheBio cacheLarge).2.2).2.1
    (get_cached_text nlp_bio nlp_large txt true
      (get_cached_text nlp_bio nlp_large txt false cacheBio cacheLarge).2.1
      (get_cached_text nlp_bio nlp_large txt false cacheBio cacheLarge).2.2).2.2

/-! ## Lemmas for claim C4 -/

theorem resolveStep_umls (linker : String → String) (site_i pred : PEnt)
    (st : SiteInfo × List (PEnt × SiteInfo)) :
    (resolveStep linker site_i pred st).1.umls_names = st.1.umls_names := by
  unfold resolveStep
  rcases h2 : pyDictGet? st.2 pred with _ | info
  · rfl
  · by_cases h : pyInStr (pyLower site_i.text) (pyLower pred.text) = true
    · simp only [h, if_true]
    · rw [Bool.not_eq_true] at h
      simp only [h, Bool.false_eq_true, if_false]
      rcases get_intersecting_umls_names st.1.umls_names info.umls_names with
        _ | ⟨c, cs⟩
      · rfl
      · rfl

theorem resolveStep_get_other (linker : String → String) (site_i pred p : PEnt)
    (st : SiteInfo × List (PEnt × SiteInfo)) (ip : SiteInfo) (hne : p ≠ pred)
    (h : pyDictGet? st.2 p = some ip) :
    pyDictGet? (resolveStep linker site_i pred st).2 p = some ip := by
  unfold resolveStep
  rcases h2 : pyDictGet? st.2 pred with _ | info
  · exact h
  · by_cases hsub : pyInStr (pyLower site_i.text) (pyLower pred.text) = true
    · simp only [hsub, if_true]
      exact pyDictGet?_set_other _ _ _ _ _ hne h
    · rw [Bool.not_eq_true] at hsub
      simp only [hsub, Bool.false_eq_true, if_false]
      rcases get_intersecting_umls_names st.1.umls_names info.umls_names with
        _ | ⟨c, cs⟩
      · exact h
      · exact pyDictGet?_set_other _ _ _ _ _ hne h

theorem resolveInner_append (linker : String → String) (site_i : PEnt) :
    ∀ (ks1 ks2 : List PEnt) (st : SiteInfo × List (PEnt × SiteInfo)),
      resolveInner linker site_i (ks1 ++ ks2) st =
        resolveInner linker site_i ks2 (resolveInner linker site_i ks1 st) := by
  intro ks1
  induction ks1 with
  | nil => intro ks2 st; rfl
  | cons k t ih =>
    intro ks2 st
    rw [List.cons_append]
    rw [show resolveInner linker site_i (k :: (t ++ ks2)) st =
      resolveInner linker site_i (t ++ ks2) (resolveStep linker site_i k st)
        from rfl]
    rw [show resolveInner linker site_i (k :: t) st =
      resolveInner linker site_i t (resolveStep linker site_i k st) from rfl]
    exact ih ks2 _

theorem resolveInner_umls (linker : String → String) (site_i : PEnt) :
    ∀ (ks : List PEnt) (st : SiteInfo × List (PEnt × SiteInfo)),
      (resolveInner linker site_i ks st).1.umls_names = st.1.umls_names := by
  intro ks
  induction ks with
  | nil => intro st; rfl
  | cons k t ih =>
    intro st
    unfold resolveInner
    rw [ih]
    exact resolveStep_umls linker site_i k st

theorem resolveInner_get_other (linker : String → String) (site_i : PEnt) :
    ∀ (ks : List PEnt) (st : SiteInfo × List (PEnt × SiteInfo)) (p : PEnt)
      (ip : SiteInfo), (∀ k ∈ ks, p ≠ k) → pyDictGet? st.2 p = some ip →
      pyDictGet? (resolveInner linker site_i ks st).2 p = some ip := by
  intro ks
  induction ks with
  | nil => intro st p ip _ h; exact h
  | cons k t ih =>
    intro st p ip hk h
    unfold resolveInner
    refine ih _ p ip (fun q hq => hk q (List.mem_cons_of_mem _ hq)) ?_
    exact resolveStep_get_other linker site_i k p st ip (hk k (by simp)) h

theorem pyDictGet?_append_keyed {κ β : Type} [DecidableEq κ] :
    ∀ (P : List (κ × β)) (p : κ) (ip : β), (∀ q ∈ P, q.1 ≠ p) →
      pyDictGet? (P ++ [(p, ip)]) p = some ip := by
  intro P
  induction P with
  | nil =>
    intro p ip _
    unfold pyDictGet?
    simp [List.find?]
  | cons q t ih =>
    intro p ip h
    unfold pyDictGet?
    rw [List.cons_append, List.find?]
    rw [show (decide (q.1 = p)) = false by simpa using h q (by simp)]
    exact ih p ip (fun v hv => h v (List.mem_cons_of_mem _ hv))

/-! ## Claim C4 -/

/-- Counterexample to C4 as stated: one recorded infection site `x` with
UMLS candidates `C1, C2` and two predicted sites `y` (candidates `C1`) and
`z` (candidates `C2`).  The pair `(x, y)` shares `C1`, yet after
`resolve_normalized_names` runs, `x` carries the canonical name obtained for
`C2` (the later pair overwrote it) while `y` carries the one for `C1` — the
two are not identical. -/
theorem resolve_normalized_names_overwrite_counterexample :
    get_intersecting_umls_names [("C1", 0), ("C2", 0)] [("C1", 0)] = ["C1"] ∧
    (pyDictGet?
      (resolveOuter (fun c => if c = "C1" then "Name1" else "Name2") []
        [⟨0, 1, "", "x", [("C1", 0), ("C2", 0)]⟩] []
        [(⟨10, 11, "E", "y", [("C1", 0)]⟩, ⟨[("C1", 0)], true, "y"⟩),
          (⟨12, 13, "E", "z", [("C2", 0)]⟩, ⟨[("C2", 0)], true, "z"⟩)]).1
      ⟨0, 1, "", "x", [("C1", 0), ("C2", 0)]⟩).map SiteInfo.canonical_name =
        some "Name2" ∧
    (pyDictGet?
      (resolveOuter (fun c => if c = "C1" then "Name1" else "Name2") []
        [⟨0, 1, "", "x", [("C1", 0), ("C2", 0)]⟩] []
        [(⟨10, 11, "E", "y", [("C1", 0)]⟩, ⟨[("C1", 0)], true, "y"⟩),
          (⟨12, 13, "E", "z", [("C2", 0)]⟩, ⟨[("C2", 0)], true, "z"⟩)]).2
      ⟨10, 11, "E", "y", [("C1", 0)]⟩).map SiteInfo.canonical_name =
        some "Name1" ∧
    ("Name2" : String) ≠ "Name1" := by
  refine ⟨by decide, by decide, by decide, by decide⟩

/-- Claim C4 (amended): when the pair is processed — the recorded site
against a predicted site whose UMLS candidates share an identifier and whose
lower-cased text does not contain the recorded site's lower-cased text — both
are assigned the canonical name of the first shared identifier and marked as
no longer needing normalization; the assignment is final when no later pair
overwrites it, as here for a single recorded site and the predicted site at
the end of the dictionary. -/
theorem resolve_pair_normalized (linker : String → String)
    (ents_of_interest : List PEnt) (site0 : PEnt)
    (P : List (PEnt × SiteInfo)) (p : PEnt) (infoP : SiteInfo)
    (c : String) (cs : List String)
    (hkeys : ∀ q ∈ P, q.1 ≠ p)
    (hsub : pyInStr (pyLower (get_overlapping_entity site0 ents_of_interest).text)
      (pyLower p.text) = false)
    (hinter : get_intersecting_umls_names
      (get_overlapping_entity site0 ents_of_interest).kb_ents infoP.umls_names =
        c :: cs) :
    ∃ si pi : SiteInfo,
      pyDictGet? (resolveOuter linker ents_of_interest [site0] []
          (P ++ [(p, infoP)])).1
        (get_overlapping_entity site0 ents_of_interest) = some si ∧
      pyDictGet? (resolveOuter linker ents_of_interest [site0] []
          (P ++ [(p, infoP)])).2 p = some pi ∧
      si.canonical_name = linker c ∧ pi.canonical_name = linker c ∧
      si.needs_normalization = false ∧ pi.needs_normalization = false := by
  set site_i := get_overlapping_entity site0 ents_of_interest with hsi
  set init : SiteInfo := ⟨site_i.kb_ents, true, site_i.text⟩ with hinit
  have houter : resolveOuter linker ents_of_interest [site0] []
      (P ++ [(p, infoP)]) =
    (pyDictSet (pyDictSet [] site_i init) site_i
      (resolveInner linker site_i ((P ++ [(p, infoP)]).map Prod.fst)
        (init, P ++ [(p, infoP)])).1,
      (resolveInner linker site_i ((P ++ [(p, infoP)]).map Prod.fst)
        (init, P ++ [(p, infoP)])).2) := rfl
  have hmapkeys : (P ++ [(p, infoP)]).map Prod.fst = P.map Prod.fst ++ [p] := by
    rw [List.map_append]
    rfl
  set mid := resolveInner linker site_i (P.map Prod.fst) (init, P ++ [(p, infoP)])
    with hmid
  have hsplitInner : resolveInner linker site_i ((P ++ [(p, infoP)]).map Prod.fst)
      (init, P ++ [(p, infoP)]) = resolveStep linker site_i p mid := by
    rw [hmapkeys, resolveInner_append]
    rfl
  have hmidp : pyDictGet? mid.2 p = some infoP := by
    apply resolveInner_get_other
    · intro k hk
      rcases List.mem_map.mp hk with ⟨q, hq, rfl⟩
      exact fun hcon => (hkeys q hq) hcon.symm
    · exact pyDictGet?_append_keyed P p infoP hkeys
  have hmidu : mid.1.umls_names = site_i.kb_ents := by
    rw [hmid, resolveInner_umls]
  have hstep : resolveStep linker site_i p mid =
      ({ mid.1 with canonical_name := linker c, needs_normalization := false },
        pyDictSet mid.2 p
          { infoP with canonical_name := linker c,
                       needs_normalization := false }) := by
    unfold resolveStep
    rw [hmidp]
    simp only [hsub, Bool.false_eq_true, if_false, hmidu, hinter]
  refine ⟨{ mid.1 with canonical_name := linker c, needs_normalization := false },
    { infoP with canonical_name := linker c, needs_normalization := false },
    ?_, ?_, rfl, rfl, rfl, rfl⟩
  · rw [houter, hsplitInner, hstep]
    exact pyDictGet?_set_self _ _ _
  · rw [houter, hsplitInner, hstep]
    exact pyDictGet?_set_self _ _ _

/-- Witness for C4 (amended) at a concrete recorded site and predicted
site sharing the identifier `C1`. -/
theorem resolve_pair_normalized_witness :
    ∃ si pi : SiteInfo,
      pyDictGet? (resolveOuter (fun _ => "NameC") []
          [⟨0, 1, "", "x", [("C1", 0)]⟩] []
          [(⟨10, 11, "E", "y", [("C1", 0)]⟩, ⟨[("C1", 0)], true, "y"⟩)]).1
        (get_overlapping_entity ⟨0, 1, "", "x", [("C1", 0)]⟩ []) = some si ∧
      pyDictGet? (resolveOuter (fun _ => "NameC") []
          [⟨0, 1, "", "x", [("C1", 0)]⟩] []
          [(⟨10, 11, "E", "y", [("C1", 0)]⟩, ⟨[("C1", 0)], true, "y"⟩)]).2
        ⟨10, 11, "E", "y", [("C1", 0)]⟩ = some pi ∧
      si.canonical_name = (fun _ => "NameC") "C1" ∧
      pi.canonical_name = (fun _ => "NameC") "C1" ∧
      si.needs_normalization = false ∧ pi.needs_normalization = false :=
  resolve_pair_normalized (fun _ => "NameC") [] ⟨0, 1, "", "x", [("C1", 0)]⟩
    [] ⟨10, 11, "E", "y", [("C1", 0)]⟩ ⟨[("C1", 0)], true, "y"⟩ "C1" []
    (fun q hq => absurd hq (List.not_mem_nil q)) (by decide) (by decide)

/-! ## Cache coherence and claim C7 -/

/-- A cache is coherent with a model when every stored document is the
model's output for its key — the invariant maintained by processing rows
through `get_cached_text`. -/
def coherent {β : Type} (nlp : String → β) (cache : List (String × β)) : Prop :=
  ∀ p ∈ cache, p.2 = nlp p.1

theorem pyDictGet?_coherent {β : Type} {nlp : String → β}
    {cache : List (String × β)} (h : coherent nlp cache) {k : String} {v : β}
    (hget : pyDictGet? cache k = some v) : v = nlp k := by
  unfold pyDictGet? at hget
  cases hfind : cache.find? (fun p => p.1 = k) with
  | none => rw [hfind] at hget; exact Option.noConfusion hget
  | some pr =>
    rw [hfind] at hget
    simp only [Option.map_some', Option.some.injEq] at hget
    have hmem := List.mem_of_find?_eq_some hfind
    have hkey : pr.1 = k := by simpa using List.find?_some hfind
    rw [← hget, h pr hmem, hkey]

theorem coherent_set {β : Type} {nlp : String → β} {cache : List (String × β)}
    (h : coherent nlp cache) (k : String) :
    coherent nlp (pyDictSet cache k (nlp k)) := by
  intro p hp
  unfold pyDictSet at hp
  by_cases hany : cache.any (fun q => q.1 = k) = true
  · rw [if_pos hany] at hp
    rcases List.mem_map.mp hp with ⟨q, hq, rfl⟩
    by_cases hqk : q.1 = k
    · rw [if_pos hqk]
    · rw [if_neg hqk]
      exact h q hq
  · rw [if_neg hany] at hp
    rcases List.mem_append.mp hp with hp1 | hp1
    · exact h p hp1
    · rw [List.mem_singleton.mp hp1]

theorem get_cached_text_false_spec {β : Type} (nlp_bio nlp_large : String → β)
    (txt : String) (cb cl : List (String × β)) (hb : coherent nlp_bio cb)
    (hl : coherent nlp_large cl) :
    (get_cached_text nlp_bio nlp_large txt false cb cl).1 = nlp_bio txt ∧
    coherent nlp_bio (get_cached_text nlp_bio nlp_large txt false cb cl).2.1 ∧
    coherent nlp_large (get_cached_text nlp_bio nlp_large txt false cb cl).2.2 := by
  unfold get_cached_text
  simp only [Bool.false_eq_true, if_false]
  rcases hget : pyDictGet? cb txt with _ | doc
  · exact ⟨rfl, coherent_set hb txt, hl⟩
  · exact ⟨pyDictGet?_coherent hb hget, hb, hl⟩

theorem get_cached_text_true_spec {β : Type} (nlp_bio nlp_large : String → β)
    (txt : String) (cb cl : List (String × β)) (hb : coherent nlp_bio cb)
    (hl : coherent nlp_large cl) :
    (get_cached_text nlp_bio nlp_large txt true cb cl).1 = nlp_large txt ∧
    coherent nlp_bio (get_cached_text nlp_bio nlp_large txt true cb cl).2.1 ∧
    coherent nlp_large (get_cached_text nlp_bio nlp_large txt true cb cl).2.2 := by
  unfold get_cached_text
  simp only [if_true]
  rcases hget : pyDictGet? cl txt with _ | doc
  · exact ⟨rfl, hb, coherent_set hl txt⟩
  · exact ⟨pyDictGet?_coherent hl hget, hb, hl⟩

/-- Under coherent caches, the output string pair of
`predict_and_normalize_infection_sites_2` is a pure function of the models,
the linker, and the row's own inputs, and processing the row preserves
coherence. -/
theorem predict_and_normalize_spec (nlp_bio nlp_large : String → TDoc)
    (linker : String → String) (txt sites_formatted : String)
    (cb cl : List (String × TDoc)) (hb : coherent nlp_bio cb)
    (hl : coherent nlp_large cl) :
    (predict_and_normalize_infection_sites_2 nlp_bio nlp_large linker txt
        sites_formatted cb cl).1 =
      resolveFromDoc linker (predictFromDocs (nlp_bio txt) (nlp_large txt))
        (nlp_bio sites_formatted) ∧
    coherent nlp_bio (predict_and_normalize_infection_sites_2 nlp_bio nlp_large
      linker txt sites_formatted cb cl).2.1 ∧
    coherent nlp_large (predict_and_normalize_infection_sites_2 nlp_bio
      nlp_large linker txt sites_formatted cb cl).2.2 := by
  obtain ⟨e1, c1b, c1l⟩ :=
    get_cached_text_false_spec nlp_bio nlp_large txt cb cl hb hl
  obtain ⟨e2, c2b, c2l⟩ :=
    get_cached_text_true_spec nlp_bio nlp_large txt _ _ c1b c1l
  obtain ⟨e3, c3b, c3l⟩ :=
    get_cached_text_false_spec nlp_bio nlp_large sites_formatted _ _ c2b c2l
  unfold predict_and_normalize_infection_sites_2 resolve_normalized_names
  exact ⟨by rw [e1, e2, e3], c3b, c3l⟩

/-! ## Claim C7 -/

/-- Claim C7: extracted entities are row-scoped.  Running
`predict_and_normalize_infection_sites_2` on the same row inputs with any two
coherently populated cache states — e.g. the caches left by processing other
rows first versus fresh caches — yields the same output strings, and
processing a row keeps the caches coherent. -/
theorem predict_and_normalize_row_scoped (nlp_bio nlp_large : String → TDoc)
    (linker : String → String) (txt sites_formatted : String)
    (cb1 cl1 cb2 cl2 : List (String × TDoc))
    (h1b : coherent nlp_bio cb1) (h1l : coherent nlp_large cl1)
    (h2b : coherent nlp_bio cb2) (h2l : coherent nlp_large cl2) :
    (predict_and_normalize_infection_sites_2 nlp_bio nlp_large linker txt
        sites_formatted cb1 cl1).1 =
      (predict_and_normalize_infection_sites_2 nlp_bio nlp_large linker txt
        sites_formatted cb2 cl2).1 ∧
    coherent nlp_bio (predict_and_normalize_infection_sites_2 nlp_bio nlp_large
      linker txt sites_formatted cb1 cl1).2.1 ∧
    coherent nlp_large (predict_and_normalize_infection_sites_2 nlp_bio
      nlp_large linker txt sites_formatted cb1 cl1).2.2 := by
  obtain ⟨e1, c1, c1'⟩ := predict_and_normalize_spec nlp_bio nlp_large linker
    txt sites_formatted cb1 cl1 h1b h1l
  obtain ⟨e2, -, -⟩ := predict_and_normalize_spec nlp_bio nlp_large linker
    txt sites_formatted cb2 cl2 h2b h2l
  exact ⟨by rw [e1, e2], c1, c1'⟩

/-- Witness for C7: one cache pre-populated by processing another row's
text, the other empty. -/
theorem predict_and_normalize_row_scoped_witness :
    (predict_and_normalize_infection_sites_2
        (fun _ => ⟨[], [], [], fun _ _ => "", fun _ _ => []⟩)
        (fun _ => ⟨[], [], [], fun _ _ => "", fun _ _ => []⟩)
        (fun _ => "") "some text" "spleen"
        [("another row", ⟨[], [], [], fun _ _ => "", fun _ _ => []⟩)] []).1 =
      (predict_and_normalize_infection_sites_2
        (fun _ => ⟨[], [], [], fun _ _ => "", fun _ _ => []⟩)
        (fun _ => ⟨[], [], [], fun _ _ => "", fun _ _ => []⟩)
        (fun _ => "") "some text" "spleen" [] []).1 :=
  (predict_and_normalize_row_scoped
    (fun _ => ⟨[], [], [], fun _ _ => "", fun _ _ => []⟩)
    (fun _ => ⟨[], [], [], fun _ _ => "", fun _ _ => []⟩)
    (fun _ => "") "some text" "spleen"
    [("another row", ⟨[], [], [], fun _ _ => "", fun _ _ => []⟩)] [] [] []
    (fun p hp => by
      rcases List.mem_singleton.mp hp with rfl
      rfl)
    (fun p hp => absurd hp (List.not_mem_nil p))
    (fun p hp => absurd hp (List.not_mem_nil p))
    (fun p hp => absurd hp (List.not_mem_nil p))).1

end Microsp
